import Mathlib

/-!
Verification development for the variant-shopify-setup repository.

The development shallowly embeds the two core components of the repository:

* the experiment assignment engine (`TestAssignment`, `AssignmentManager`
  operations `setAssignment`, `getAssignment`, `getAllAssignments`,
  `recalculateTestedVariants`, `cleanup` from
  `ABTestingProject/public/snippets/assignment-manager.js` /
  `ABTestingProject/public/ab-testing.js`), together with the bucketing
  algorithm `assignGroup` / `setOrKeepAssignment`.  Two variants of
  `setOrKeepAssignment` exist in the repository: `public/ab-testing-system.js`
  keeps a pre-existing valid assignment, while
  `ABTestingProject/public/ab-testing.js` overwrites unconditionally; both are
  embedded (the latter in namespace `Legacy`).

* the event delivery pipeline of the PostgreSQL reporter (`RateLimiter`,
  `EventDeduplicator`, `QueueManager`, `processQueue`, `queueEvent`,
  `trackAssignment`, `_trackImpression`).

JavaScript conventions carried into the embedding: an absent (`undefined`)
string-valued field is `Option.none`; the string `""` is falsy; machine time
`Date.now()` is a natural number of milliseconds; `Math.random()` draws are
explicit rational parameters in `[0,1)`.
-/

namespace ABTesting

/-- JavaScript `x || d` for a string-or-undefined value `x` and string default
`d`: `undefined` and `""` are falsy. -/
def jsOr (o : Option String) (d : String) : String :=
  match o with
  | some s => if s = "" then d else s
  | none => d

/-- JavaScript `x || y` where both sides are string-or-undefined. -/
def jsOrOpt (a b : Option String) : Option String :=
  match a with
  | some s => if s = "" then b else some s
  | none => b

/-- JavaScript truthiness test `!x` for a string-or-undefined value. -/
def falsy (o : Option String) : Bool :=
  match o with
  | some s => s = ""
  | none => true

/-- Input object for the `TestAssignment` constructor (`data` in the source).
`tested_variant` distinguishes an absent property (`none`) from an explicit
`null` (`some none`), mirroring the source's `!== undefined` test. -/
structure AssignData where
  variant : Option String
  type : Option String
  mode : Option String
  pageGroup : Option String
  name : Option String
  tested_variant : Option (Option String)
  assigned_variant : Option String
deriving Repr, DecidableEq

/-- A stored test assignment, as built by the `TestAssignment` constructor.
`testId` and `timestamp` are always present (the constructor always sets
them), so the `isValid` checks on those two fields are vacuous here.  In
`tested_variant`, `none` stands for both JavaScript `null` and `undefined`
(nothing in the engine distinguishes the two once stored). -/
structure TestAssignment where
  testId : String
  variant : Option String
  type : Option String
  mode : Option String
  pageGroup : Option String
  timestamp : Nat
  name : String
  tested_variant : Option String
  assigned_variant : Option String
deriving Repr, DecidableEq

/-- The `TestAssignment` constructor (`assignment-manager.js` lines 12-32).
Note that it never calls `validateInput`. -/
def mkTestAssignment (now : Nat) (testId : String) (data : AssignData) :
    TestAssignment :=
  { testId := testId
    variant := data.variant
    type := data.type
    mode := data.mode
    pageGroup := data.pageGroup
    timestamp := now
    name := jsOr data.name ""
    tested_variant := match data.tested_variant with
      | some v => v
      | none => none
    assigned_variant := jsOrOpt data.assigned_variant data.variant }

/-- `TestAssignment.validateInput` (`assignment-manager.js` lines 34-42): the
validation the constructor could perform but never invokes. -/
def validateInput (testId : String) (data : AssignData) : Except String Unit :=
  if testId = "" then .error "TestId is required"
  else if falsy data.variant || falsy data.type || falsy data.mode
      || falsy data.pageGroup then
    .error "Missing required fields"
  else .ok ()

/-- The 30-day assignment expiry window, in milliseconds. -/
def ASSIGNMENT_TTL : Nat := 30 * 24 * 60 * 60 * 1000

/-- The `hasAll` conjunct of `TestAssignment.isValid`: every required field is
not `undefined` (`testId` and `timestamp` are present by construction). -/
def hasAllRequired (a : TestAssignment) : Bool :=
  a.variant.isSome && a.type.isSome && a.mode.isSome && a.pageGroup.isSome

/-- `TestAssignment.isValid` (`assignment-manager.js` lines 44-56), with the
current time passed explicitly. -/
def isValid (now : Nat) (a : TestAssignment) : Bool :=
  hasAllRequired a && decide (now - a.timestamp < ASSIGNMENT_TTL)

/-- The assignment store: the `AssignmentManager.assignments` JavaScript `Map`,
as an insertion-ordered association list with pairwise-distinct keys. -/
abbrev AMap := List (String × TestAssignment)

/-- JavaScript `Map.get`. -/
def mget (m : AMap) (k : String) : Option TestAssignment :=
  (m.find? (fun e => e.1 = k)).map Prod.snd

/-- JavaScript `Map.set`: replace in place when the key exists, append
otherwise. -/
def mapSet (m : AMap) (k : String) (v : TestAssignment) : AMap :=
  if m.any (fun e => e.1 = k) then
    m.map (fun e => if e.1 = k then (k, v) else e)
  else
    m ++ [(k, v)]

/-- `AssignmentManager.getAssignment` (valid assignments only; the store is
not mutated by a read, which the purely functional signature reflects). -/
def getAssignment (now : Nat) (m : AMap) (testId : String) :
    Option TestAssignment :=
  match mget m testId with
  | some a => if isValid now a then some a else none
  | none => none

/-- `AssignmentManager.getAllAssignments` (valid assignments only). -/
def getAllAssignments (now : Nat) (m : AMap) : List TestAssignment :=
  (m.map Prod.snd).filter (isValid now)

/-- Grouping key used by `recalculateTestedVariants`:
`assignment.pageGroup || 'default'`. -/
def groupKey (a : TestAssignment) : String :=
  match a.pageGroup with
  | some s => if s = "" then "default" else s
  | none => "default"

/-- Number of assignments of group `g` in the store whose `assigned_variant`
is not the string `"0"` (an `undefined` `assigned_variant` also counts, as in
JavaScript `a.assigned_variant !== "0"`). -/
def nonZeroCountIn (m : AMap) (g : String) : Nat :=
  (m.map Prod.snd).countP
    (fun a => decide (groupKey a = g) && !decide (a.assigned_variant = some "0"))

/-- The update `recalculateTestedVariants` performs on a single assignment,
given the whole store (the counts only read `assigned_variant`, which the
procedure never mutates, so the imperative loop equals this map). -/
def recalcOne (m : AMap) (a : TestAssignment) : TestAssignment :=
  let c := nonZeroCountIn m (groupKey a)
  if c = 0 then { a with tested_variant := some "0" }
  else if c = 1 then
    if a.assigned_variant = some "0" then { a with tested_variant := some "excluded" }
    else { a with tested_variant := a.assigned_variant }
  else { a with tested_variant := some "excluded" }

/-- `AssignmentManager.recalculateTestedVariants` (`assignment-manager.js`
lines 203-246). -/
def recalculateTestedVariants (m : AMap) : AMap :=
  m.map (fun e => (e.1, recalcOne m e.2))

/-- `AssignmentManager.setAssignment`: construct, store, and re-run
`recalculateTestedVariants` (via `persist`).  Writing the two localStorage
projections has no effect on the in-memory store and is not modelled. -/
def setAssignment (now : Nat) (m : AMap) (testId : String) (data : AssignData) :
    AMap × TestAssignment :=
  let asg := mkTestAssignment now testId data
  (recalculateTestedVariants (mapSet m testId asg), asg)

/-- `AssignmentManager.cleanup`: drop invalid assignments and re-run
recalculation when anything changed. -/
def cleanup (now : Nat) (m : AMap) : AMap :=
  let m2 := m.filter (fun e => isValid now e.2)
  if m2.length = m.length then m else recalculateTestedVariants m2

/-- A test definition as produced by `loadActiveTestsFromSettings`
(`public/ab-testing-system.js` lines 85-124). -/
structure TestDef where
  id : String
  mode : String
  forcedVariant : Option String
  location : String
  testName : String
  possibleNonZeroVariants : List String
deriving Repr, DecidableEq

/-- The non-zero variant list `["1", ..., toString variantsCount]` built by
`loadActiveTestsFromSettings`. -/
def possibleVars (variantsCount : Nat) : List String :=
  (List.range variantsCount).map (fun i => toString (i + 1))

/-- JavaScript `Math.floor` on a rational. -/
def jsFloor (q : ℚ) : ℤ := Int.floor q

/-- JavaScript array indexing `arr[i]` with an integer index: out-of-range and
negative indices yield `undefined`. -/
def jsIndex (arr : List String) (i : ℤ) : Option String :=
  if 0 ≤ i then arr.get? i.toNat else none

/-- Assignment data for a forced test (`assignGroup`, forced branch). -/
def forcedAssignmentData (group : String) (ft : TestDef) : AssignData :=
  let forcedVar := jsOr ft.forcedVariant "0"
  { variant := some forcedVar
    assigned_variant := some forcedVar
    tested_variant := some (some forcedVar)
    type := some (if forcedVar = "0" then "control" else "test")
    mode := some (if forcedVar = "0" then "forced-0" else "forced")
    pageGroup := some group
    name := some (jsOr (some ft.testName) "") }

/-- Assignment data for an unforced test when the traffic draw excludes the
whole group (`rng >= fraction` branch). -/
def pureControlAssignmentData (group : String) (t : TestDef) : AssignData :=
  { variant := some "0", assigned_variant := some "0",
    tested_variant := some (some "0"), type := some "control",
    mode := some "pure-control", pageGroup := some group,
    name := some (jsOr (some t.testName) "") }

/-- Assignment data for an unforced test that lost the in-group draw. -/
def excludedAssignmentData (group : String) (t : TestDef) : AssignData :=
  { variant := some "0", assigned_variant := some "0",
    tested_variant := some (some "0"), type := some "control",
    mode := some "excluded", pageGroup := some group,
    name := some (jsOr (some t.testName) "") }

/-- Assignment data for the unforced test that won the in-group draw;
`finalVar` is `arr[pick2]`, which is `undefined` when out of range. -/
def chosenAssignmentData (group : String) (t : TestDef) (finalVar : Option String) :
    AssignData :=
  { variant := finalVar
    assigned_variant := finalVar
    tested_variant := match finalVar with
      | some s => some (some s)
      | none => none
    type := some "test"
    mode := some "probabilistic"
    pageGroup := some group
    name := some (jsOr (some t.testName) "") }

/-- `ABTestManager.setOrKeepAssignment` of `public/ab-testing-system.js`
(lines 232-241): a currently valid assignment is kept, otherwise a new one is
stored. -/
def setOrKeepAssignment (now : Nat) (m : AMap) (t : TestDef) (data : AssignData) :
    AMap :=
  match getAssignment now m t.id with
  | some _ => m
  | none => (setAssignment now m t.id data).1

/-- Fold `setOrKeepAssignment` over a prepared list of per-test assignment
data, in order (the `forEach` loops of `assignGroup`). -/
def setOrKeepAll (now : Nat) (m : AMap) (ps : List (TestDef × AssignData)) :
    AMap :=
  ps.foldl (fun acc p => setOrKeepAssignment now acc p.1 p.2) m

/-- Indexed traversal, mirroring JavaScript `forEach((x, idx) => ...)`. -/
def withIdx : Nat → List α → List (Nat × α)
  | _, [] => []
  | i, a :: as => (i, a) :: withIdx (i + 1) as

/-- The per-test assignment data computed by one `assignGroup` call, in the
order the source's `forEach` loops visit the tests: first every forced test,
then (when unforced tests exist) either the pure-control sweep
(`rng >= fraction`) or the indexed draw sweep.  `traffic` is the parsed
traffic percent for the group, `r`, `u1`, `u2` the three `Math.random()`
draws (traffic gate, test choice, variant choice). -/
def assignGroupPairs (group : String) (tests : List TestDef) (traffic : ℤ)
    (r u1 u2 : ℚ) : List (TestDef × AssignData) :=
  if (tests.filter (fun t => t.mode = "test")).length = 0 then
    (tests.filter (fun t => t.mode = "forced")).map
      (fun ft => (ft, forcedAssignmentData group ft))
  else if (traffic : ℚ) / 100 ≤ r then
    (tests.filter (fun t => t.mode = "forced")).map
      (fun ft => (ft, forcedAssignmentData group ft)) ++
    (tests.filter (fun t => t.mode = "test")).map
      (fun t => (t, pureControlAssignmentData group t))
  else
    (tests.filter (fun t => t.mode = "forced")).map
      (fun ft => (ft, forcedAssignmentData group ft)) ++
    (withIdx 0 (tests.filter (fun t => t.mode = "test"))).map (fun p =>
      if (p.1 : ℤ) = jsFloor (u1 * ((tests.filter (fun t => t.mode = "test")).length : ℚ)) then
        (p.2, chosenAssignmentData group p.2
          (jsIndex p.2.possibleNonZeroVariants
            (jsFloor (u2 * (p.2.possibleNonZeroVariants.length : ℚ)))))
      else (p.2, excludedAssignmentData group p.2))

/-- `ABTestManager.assignGroup` of `public/ab-testing-system.js` (lines
142-230), with the keep-existing `setOrKeepAssignment`. -/
def assignGroup (now : Nat) (m : AMap) (group : String) (tests : List TestDef)
    (traffic : ℤ) (r u1 u2 : ℚ) : AMap :=
  setOrKeepAll now m (assignGroupPairs group tests traffic r u1 u2)

/-- The inputs of one bucketing run: the time and the three random draws. -/
structure Draw where
  now : Nat
  traffic : ℤ
  r : ℚ
  u1 : ℚ
  u2 : ℚ

/-- A sequence of bucketing runs for one page-group over a fixed test list,
starting from an empty assignment store. -/
def runSeq (group : String) (tests : List TestDef) (ds : List Draw) : AMap :=
  ds.foldl (fun m d => assignGroup d.now m group tests d.traffic d.r d.u1 d.u2) []

namespace Legacy

/-- `ABTestManager.setOrKeepAssignment` of
`ABTestingProject/public/ab-testing.js` (lines 715-719): despite its name it
unconditionally overwrites via `setAssignment`. -/
def setOrKeepAssignment (now : Nat) (m : AMap) (t : TestDef) (data : AssignData) :
    AMap :=
  (setAssignment now m t.id data).1

/-- `ABTestManager.assignGroup` of `ABTestingProject/public/ab-testing.js`
(lines 639-714); the per-test data is identical to the keep variant, only the
store step differs. -/
def assignGroup (now : Nat) (m : AMap) (group : String) (tests : List TestDef)
    (traffic : ℤ) (r u1 u2 : ℚ) : AMap :=
  (assignGroupPairs group tests traffic r u1 u2).foldl
    (fun acc p => setOrKeepAssignment now acc p.1 p.2) m

end Legacy

example :
    mkTestAssignment 7 "AB1"
      { variant := some "1", type := some "test", mode := some "probabilistic",
        pageGroup := some "global", name := none, tested_variant := some (some "1"),
        assigned_variant := some "1" } =
    { testId := "AB1", variant := some "1", type := some "test",
      mode := some "probabilistic", pageGroup := some "global", timestamp := 7,
      name := "", tested_variant := some "1", assigned_variant := some "1" } := by
  decide

/-- View of an assignment with the derived `tested_variant` erased; the
bucketing lemmas track assignments up to this view because
`recalculateTestedVariants` rewrites `tested_variant` of every stored
assignment whenever anything is stored. -/
def sansTested (a : TestAssignment) : TestAssignment :=
  { a with tested_variant := none }

/-- `mget` up to the `sansTested` view. -/
def mgetS (m : AMap) (k : String) : Option TestAssignment :=
  (mget m k).map sansTested

/-- The keys of the assignment store. -/
def keysNodup (m : AMap) : Prop := (m.map Prod.fst).Nodup

theorem sansTested_fields {a b : TestAssignment} (h : sansTested a = sansTested b) :
    a.testId = b.testId ∧ a.variant = b.variant ∧ a.type = b.type ∧
    a.mode = b.mode ∧ a.pageGroup = b.pageGroup ∧ a.timestamp = b.timestamp ∧
    a.name = b.name ∧ a.assigned_variant = b.assigned_variant := by
  cases a
  cases b
  simp only [sansTested] at h
  injection h with h1 h2 h3 h4 h5 h6 h7 h8 h9
  exact ⟨h1, h2, h3, h4, h5, h6, h7, h9⟩

theorem hasAllRequired_sansTested (a : TestAssignment) :
    hasAllRequired (sansTested a) = hasAllRequired a := rfl

theorem isValid_sansTested (now : Nat) (a : TestAssignment) :
    isValid now (sansTested a) = isValid now a := rfl

theorem mget_nil (k : String) : mget [] k = none := rfl

theorem mget_cons (e : String × TestAssignment) (m : AMap) (k : String) :
    mget (e :: m) k = if e.1 = k then some e.2 else mget m k := by
  by_cases h : e.1 = k <;> simp [mget, List.find?_cons, h]

theorem mget_mem {m : AMap} {k : String} {a : TestAssignment}
    (h : mget m k = some a) : (k, a) ∈ m := by
  induction m with
  | nil => simp [mget] at h
  | cons e m ih =>
    rw [mget_cons] at h
    by_cases he : e.1 = k
    · rw [if_pos he] at h
      obtain ⟨e1, e2⟩ := e
      injection h with h2
      subst h2
      subst he
      exact List.mem_cons_self _ _
    · rw [if_neg he] at h
      exact List.mem_cons_of_mem _ (ih h)

theorem mget_eq_of_mem {m : AMap} {k : String} {a : TestAssignment}
    (hn : keysNodup m) (h : (k, a) ∈ m) : mget m k = some a := by
  induction m with
  | nil => cases h
  | cons e m ih =>
    rcases List.mem_cons.mp h with h1 | h1
    · rw [← h1, mget_cons, if_pos rfl]
    · have hk : k ∈ m.map Prod.fst := List.mem_map.mpr ⟨(k, a), h1, rfl⟩
      have hne : e.1 ≠ k := by
        intro he
        have := (List.nodup_cons.mp hn).1
        rw [he] at this
        exact this hk
      rw [mget_cons, if_neg hne]
      exact ih (List.nodup_cons.mp hn).2 h1

theorem mget_none_of_not_any {m : AMap} {k : String}
    (h : m.any (fun e => e.1 = k) = false) : mget m k = none := by
  induction m with
  | nil => rfl
  | cons e m ih =>
    simp only [List.any_cons, Bool.or_eq_false_iff] at h
    rw [mget_cons, if_neg (by simpa using h.1)]
    exact ih h.2

theorem mget_replaceKey_self {k : String} {v : TestAssignment} :
    ∀ m : AMap, m.any (fun e => e.1 = k) = true →
      mget (m.map (fun e => if e.1 = k then (k, v) else e)) k = some v := by
  intro m
  induction m with
  | nil => intro hany; simp at hany
  | cons e m ih =>
    intro hany
    by_cases he : e.1 = k
    · simp only [List.map_cons, if_pos he, mget_cons]
      simp
    · simp only [List.map_cons, if_neg he, mget_cons, if_neg he]
      apply ih
      simp only [List.any_cons, he] at hany
      simpa using hany

theorem mget_replaceKey_ne {k k' : String} {v : TestAssignment} (h : k' ≠ k) :
    ∀ m : AMap,
      mget (m.map (fun e => if e.1 = k then (k, v) else e)) k' = mget m k' := by
  intro m
  induction m with
  | nil => rfl
  | cons e m ih =>
    by_cases he : e.1 = k
    · simp only [List.map_cons, if_pos he, mget_cons]
      rw [if_neg (show (k, v).1 ≠ k' by simpa using Ne.symm h),
        if_neg (show e.1 ≠ k' by rw [he]; exact Ne.symm h)]
      exact ih
    · simp only [List.map_cons, if_neg he, mget_cons]
      by_cases he' : e.1 = k'
      · rw [if_pos he', if_pos he']
      · rw [if_neg he', if_neg he']
        exact ih

theorem mget_append_single_self {k : String} (v : TestAssignment) :
    ∀ m : AMap, mget m k = none → mget (m ++ [(k, v)]) k = some v := by
  intro m
  induction m with
  | nil => intro _; simp [mget, List.find?]
  | cons e m ih =>
    intro h0
    rw [mget_cons] at h0
    by_cases he : e.1 = k
    · rw [if_pos he] at h0
      cases h0
    · rw [if_neg he] at h0
      rw [List.cons_append, mget_cons, if_neg he]
      exact ih h0

theorem mget_append_single_ne {k k' : String} (h : k' ≠ k) (v : TestAssignment) :
    ∀ m : AMap, mget (m ++ [(k, v)]) k' = mget m k' := by
  intro m
  induction m with
  | nil =>
    simp only [List.nil_append]
    rw [mget_nil, mget_cons, if_neg (show (k, v).1 ≠ k' by simpa using Ne.symm h)]
    rfl
  | cons e m ih =>
    rw [List.cons_append, mget_cons, mget_cons]
    by_cases he' : e.1 = k'
    · rw [if_pos he', if_pos he']
    · rw [if_neg he', if_neg he']
      exact ih

theorem mget_mapSet_self (m : AMap) (k : String) (v : TestAssignment) :
    mget (mapSet m k v) k = some v := by
  unfold mapSet
  split
  · rename_i hany
    exact mget_replaceKey_self m hany
  · rename_i hany
    rw [Bool.not_eq_true] at hany
    exact mget_append_single_self v m (mget_none_of_not_any hany)

theorem mget_mapSet_ne (m : AMap) {k k' : String} (v : TestAssignment)
    (h : k' ≠ k) : mget (mapSet m k v) k' = mget m k' := by
  unfold mapSet
  split
  · exact mget_replaceKey_ne h m
  · exact mget_append_single_ne h v m

theorem mem_mapSet {m : AMap} {k : String} {v : TestAssignment}
    {e : String × TestAssignment} (h : e ∈ mapSet m k v) :
    e ∈ m ∨ e = (k, v) := by
  unfold mapSet at h
  split at h
  · rcases List.mem_map.mp h with ⟨e0, he0, heq⟩
    by_cases h0 : e0.1 = k
    · rw [if_pos h0] at heq
      right
      exact heq.symm
    · rw [if_neg h0] at heq
      left
      rw [← heq]
      exact he0
  · rcases List.mem_append.mp h with h1 | h1
    · exact Or.inl h1
    · right
      simpa using h1

theorem keysNodup_mapSet {m : AMap} (k : String) (v : TestAssignment)
    (hn : keysNodup m) : keysNodup (mapSet m k v) := by
  unfold mapSet
  split
  · unfold keysNodup
    have : (m.map (fun e => if e.1 = k then (k, v) else e)).map Prod.fst
        = m.map Prod.fst := by
      rw [List.map_map]
      apply List.map_congr_left
      intro e _
      by_cases he : e.1 = k
      · simp [he]
      · simp [he]
    rw [this]
    exact hn
  · rename_i hany
    unfold keysNodup
    rw [List.map_append]
    rw [List.nodup_append]
    refine ⟨hn, List.nodup_singleton _, ?_⟩
    intro x hx hmem
    simp only [List.map_cons, List.map_nil, List.mem_singleton] at hmem
    rcases List.mem_map.mp hx with ⟨e0, he0, heq⟩
    have : m.any (fun e => e.1 = k) = true := by
      simp only [List.any_eq_true]
      refine ⟨e0, he0, ?_⟩
      simp [heq, hmem]
    simp [this] at hany

theorem sansTested_recalcOne (m : AMap) (a : TestAssignment) :
    sansTested (recalcOne m a) = sansTested a := by
  have hx : ∀ x, sansTested { a with tested_variant := x } = sansTested a :=
    fun x => rfl
  simp only [recalcOne]
  split
  · exact hx _
  · split
    · split
      · exact hx _
      · exact hx _
    · exact hx _

theorem mget_keyFixedMap (g : String × TestAssignment → TestAssignment) :
    ∀ (m : AMap) (k : String),
      mget (m.map (fun e => (e.1, g e))) k = (m.find? (fun e => e.1 = k)).map g := by
  intro m k
  induction m with
  | nil => rfl
  | cons e m ih =>
    rw [List.map_cons, mget_cons, List.find?_cons]
    by_cases he : e.1 = k
    · rw [if_pos (show ((e.1, g e) : String × TestAssignment).1 = k from he)]
      have h2 : (decide (e.1 = k)) = true := by simpa using he
      rw [h2]
      rfl
    · rw [if_neg (show ¬((e.1, g e) : String × TestAssignment).1 = k from he)]
      have h2 : (decide (e.1 = k)) = false := by simpa using he
      rw [h2]
      exact ih

theorem mget_recalc (m : AMap) (k : String) :
    mget (recalculateTestedVariants m) k = (mget m k).map (recalcOne m) := by
  unfold recalculateTestedVariants
  rw [mget_keyFixedMap (fun e => recalcOne m e.2) m k]
  unfold mget
  rw [Option.map_map]
  rfl

theorem mgetS_recalc (m : AMap) (k : String) :
    mgetS (recalculateTestedVariants m) k = mgetS m k := by
  unfold mgetS
  rw [mget_recalc, Option.map_map]
  cases h : mget m k with
  | none => rfl
  | some a =>
    show some (sansTested (recalcOne m a)) = some (sansTested a)
    rw [sansTested_recalcOne]

theorem keysNodup_recalc {m : AMap} (hn : keysNodup m) :
    keysNodup (recalculateTestedVariants m) := by
  unfold keysNodup recalculateTestedVariants
  rw [List.map_map]
  exact hn

theorem mem_recalc {m : AMap} {e : String × TestAssignment}
    (h : e ∈ recalculateTestedVariants m) :
    ∃ a0, (e.1, a0) ∈ m ∧ sansTested e.2 = sansTested a0 := by
  unfold recalculateTestedVariants at h
  rcases List.mem_map.mp h with ⟨e0, he0, heq⟩
  refine ⟨e0.2, ?_, ?_⟩
  · rw [← heq]
    exact he0
  · rw [← heq]
    exact sansTested_recalcOne m e0.2

theorem mgetS_setAssignment_self (now : Nat) (m : AMap) (k : String)
    (d : AssignData) :
    mgetS (setAssignment now m k d).1 k = some (sansTested (mkTestAssignment now k d)) := by
  unfold setAssignment
  simp only
  rw [mgetS_recalc]
  unfold mgetS
  rw [mget_mapSet_self]
  rfl

theorem mgetS_setAssignment_ne (now : Nat) (m : AMap) {k k' : String}
    (d : AssignData) (h : k' ≠ k) :
    mgetS (setAssignment now m k d).1 k' = mgetS m k' := by
  unfold setAssignment
  simp only
  rw [mgetS_recalc]
  unfold mgetS
  rw [mget_mapSet_ne m _ h]

theorem keysNodup_setAssignment (now : Nat) {m : AMap} (k : String)
    (d : AssignData) (hn : keysNodup m) :
    keysNodup (setAssignment now m k d).1 :=
  keysNodup_recalc (keysNodup_mapSet k _ hn)

theorem mem_setAssignment {now : Nat} {m : AMap} {k : String} {d : AssignData}
    {e : String × TestAssignment} (h : e ∈ (setAssignment now m k d).1) :
    (∃ a0, (e.1, a0) ∈ m ∧ sansTested e.2 = sansTested a0) ∨
      (e.1 = k ∧ sansTested e.2 = sansTested (mkTestAssignment now k d)) := by
  unfold setAssignment at h
  simp only at h
  rcases mem_recalc h with ⟨a0, hmem, hst⟩
  rcases mem_mapSet hmem with h1 | h1
  · exact Or.inl ⟨a0, h1, hst⟩
  · right
    have h2 : e.1 = k := by
      have := congrArg Prod.fst h1
      simpa using this
    have h3 : a0 = mkTestAssignment now k d := by
      have := congrArg Prod.snd h1
      simpa using this
    exact ⟨h2, by rw [hst, h3]⟩

/-- Whether the store currently holds a valid assignment under `k` (the test
`setOrKeepAssignment` performs via `getAssignment`). -/
def validAt (now : Nat) (m : AMap) (k : String) : Bool :=
  match mget m k with
  | some a => isValid now a
  | none => false

/-- Validity of an optional assignment (helper for `validAt` reasoning). -/
def isValidOpt (now : Nat) (x : Option TestAssignment) : Bool :=
  match x with
  | some a => isValid now a
  | none => false

theorem validAt_eq_isValidOpt (now : Nat) (m : AMap) (k : String) :
    validAt now m k = isValidOpt now (mget m k) := rfl

theorem isValid_of_mapSans {x y : Option TestAssignment}
    (h : x.map sansTested = y.map sansTested) (now : Nat) :
    isValidOpt now x = isValidOpt now y := by
  cases x with
  | none =>
    cases y with
    | none => rfl
    | some b => simp at h
  | some a =>
    cases y with
    | none => simp at h
    | some b =>
      change some (sansTested a) = some (sansTested b) at h
      injection h with h2
      show isValid now a = isValid now b
      rw [← isValid_sansTested now a, h2, isValid_sansTested]

theorem validAt_congr {now : Nat} {m1 m2 : AMap} {k : String}
    (h : mgetS m1 k = mgetS m2 k) : validAt now m1 k = validAt now m2 k := by
  rw [validAt_eq_isValidOpt, validAt_eq_isValidOpt]
  exact isValid_of_mapSans h now

theorem getAssignment_eq (now : Nat) (m : AMap) (k : String) :
    getAssignment now m k = if validAt now m k then mget m k else none := by
  unfold getAssignment validAt
  cases mget m k with
  | none => simp
  | some a =>
    by_cases hv : isValid now a
    · simp [hv]
    · simp [hv]

theorem getAssignment_eq_mget_of_validAt {now : Nat} {m : AMap} {k : String}
    (h : validAt now m k = true) : getAssignment now m k = mget m k := by
  rw [getAssignment_eq, if_pos h]

theorem getAssignment_eq_none_of_not_validAt {now : Nat} {m : AMap} {k : String}
    (h : validAt now m k = false) : getAssignment now m k = none := by
  rw [getAssignment_eq, if_neg]
  simp [h]

theorem validAt_true_of_getAssignment {now : Nat} {m : AMap} {k : String}
    {a : TestAssignment} (h : getAssignment now m k = some a) :
    validAt now m k = true ∧ mget m k = some a := by
  rw [getAssignment_eq] at h
  by_cases hv : validAt now m k = true
  · rw [if_pos hv] at h
    exact ⟨hv, h⟩
  · rw [if_neg hv] at h
    cases h

theorem mgetS_setOrKeep_self (now : Nat) (m : AMap) (t : TestDef)
    (d : AssignData) :
    mgetS (setOrKeepAssignment now m t d) t.id =
      (if validAt now m t.id then mgetS m t.id
        else some (sansTested (mkTestAssignment now t.id d))) := by
  unfold setOrKeepAssignment
  by_cases hv : validAt now m t.id = true
  · rw [getAssignment_eq_mget_of_validAt hv, if_pos hv]
    rw [validAt_eq_isValidOpt] at hv
    cases h1 : mget m t.id with
    | none => rw [h1] at hv; simp [isValidOpt] at hv
    | some a => rfl
  · have hv2 : validAt now m t.id = false := by
      cases h : validAt now m t.id
      · rfl
      · exact absurd h hv
    rw [getAssignment_eq_none_of_not_validAt hv2, if_neg hv]
    exact mgetS_setAssignment_self now m t.id d

theorem mgetS_setOrKeep_ne (now : Nat) (m : AMap) (t : TestDef)
    (d : AssignData) {k : String} (h : k ≠ t.id) :
    mgetS (setOrKeepAssignment now m t d) k = mgetS m k := by
  unfold setOrKeepAssignment
  cases getAssignment now m t.id with
  | some a => rfl
  | none => exact mgetS_setAssignment_ne now m d h

theorem keysNodup_setOrKeep (now : Nat) {m : AMap} (t : TestDef)
    (d : AssignData) (hn : keysNodup m) :
    keysNodup (setOrKeepAssignment now m t d) := by
  unfold setOrKeepAssignment
  cases getAssignment now m t.id with
  | some a => exact hn
  | none => exact keysNodup_setAssignment now t.id d hn

theorem mem_setOrKeep {now : Nat} {m : AMap} {t : TestDef} {d : AssignData}
    {e : String × TestAssignment} (h : e ∈ setOrKeepAssignment now m t d) :
    (∃ a0, (e.1, a0) ∈ m ∧ sansTested e.2 = sansTested a0) ∨
      (e.1 = t.id ∧ sansTested e.2 = sansTested (mkTestAssignment now t.id d)) := by
  unfold setOrKeepAssignment at h
  cases hg : getAssignment now m t.id with
  | some a =>
    rw [hg] at h
    exact Or.inl ⟨e.2, by cases e; exact h, rfl⟩
  | none =>
    rw [hg] at h
    exact mem_setAssignment h

/-- Keys of a prepared per-test data list. -/
def pairIds (ps : List (TestDef × AssignData)) : List String :=
  ps.map (fun p => p.1.id)

theorem mgetS_setOrKeepAll_notin (now : Nat) :
    ∀ (ps : List (TestDef × AssignData)) (m : AMap) (k : String),
      (∀ p ∈ ps, p.1.id ≠ k) →
      mgetS (setOrKeepAll now m ps) k = mgetS m k := by
  intro ps
  induction ps with
  | nil => intro m k _; rfl
  | cons p ps ih =>
    intro m k hk
    unfold setOrKeepAll
    rw [List.foldl_cons]
    have h1 : mgetS (setOrKeepAll now (setOrKeepAssignment now m p.1 p.2) ps) k
        = mgetS (setOrKeepAssignment now m p.1 p.2) k := by
      exact ih _ k (fun q hq => hk q (List.mem_cons_of_mem _ hq))
    unfold setOrKeepAll at h1
    rw [h1]
    exact mgetS_setOrKeep_ne now m p.1 p.2
      (fun hh => hk p (List.mem_cons_self _ _) hh.symm)

theorem mgetS_setOrKeepAll_pair (now : Nat) :
    ∀ (ps : List (TestDef × AssignData)) (m : AMap) (t : TestDef) (d : AssignData),
      (pairIds ps).Nodup → (t, d) ∈ ps →
      mgetS (setOrKeepAll now m ps) t.id =
        (if validAt now m t.id then mgetS m t.id
          else some (sansTested (mkTestAssignment now t.id d))) := by
  intro ps
  induction ps with
  | nil => intro m t d _ hmem; cases hmem
  | cons p ps ih =>
    intro m t d hnd hmem
    have hnd2 : (pairIds ps).Nodup := (List.nodup_cons.mp hnd).2
    have hhead : p.1.id ∉ pairIds ps := (List.nodup_cons.mp hnd).1
    unfold setOrKeepAll
    rw [List.foldl_cons]
    rcases List.mem_cons.mp hmem with h1 | h1
    · have ht : p.1 = t := by rw [← h1]
      have hd : p.2 = d := by rw [← h1]
      rw [ht] at hhead
      have hrest : ∀ q ∈ ps, q.1.id ≠ t.id := by
        intro q hq hqe
        exact hhead (by rw [← hqe]; exact List.mem_map.mpr ⟨q, hq, rfl⟩)
      have hfold := mgetS_setOrKeepAll_notin now ps
        (setOrKeepAssignment now m p.1 p.2) t.id hrest
      unfold setOrKeepAll at hfold
      rw [hfold, ht, hd]
      exact mgetS_setOrKeep_self now m t d
    · have hne : t.id ≠ p.1.id := by
        intro he
        exact hhead (by rw [← he]; exact List.mem_map.mpr ⟨(t, d), h1, rfl⟩)
      have hstep : mgetS (setOrKeepAssignment now m p.1 p.2) t.id = mgetS m t.id :=
        mgetS_setOrKeep_ne now m p.1 p.2 hne
      have := ih (setOrKeepAssignment now m p.1 p.2) t d hnd2 h1
      unfold setOrKeepAll at this
      rw [this, hstep]
      rw [validAt_congr hstep]

theorem mem_setOrKeepAll {now : Nat} :
    ∀ {ps : List (TestDef × AssignData)} {m : AMap} {e : String × TestAssignment},
      e ∈ setOrKeepAll now m ps →
      (∃ a0, (e.1, a0) ∈ m ∧ sansTested e.2 = sansTested a0) ∨
        (∃ p ∈ ps, e.1 = p.1.id ∧
          sansTested e.2 = sansTested (mkTestAssignment now p.1.id p.2)) := by
  intro ps
  induction ps with
  | nil => intro m e h; exact Or.inl ⟨e.2, by cases e; exact h, rfl⟩
  | cons p ps ih =>
    intro m e h
    unfold setOrKeepAll at h
    rw [List.foldl_cons] at h
    rcases ih h with h1 | h1
    · rcases h1 with ⟨a0, ha0, hst⟩
      rcases mem_setOrKeep ha0 with h2 | h2
      · rcases h2 with ⟨a1, ha1, hst1⟩
        exact Or.inl ⟨a1, ha1, by rw [hst, hst1]⟩
      · exact Or.inr ⟨p, List.mem_cons_self _ _, h2.1, by rw [hst, h2.2]⟩
    · rcases h1 with ⟨q, hq, hqe⟩
      exact Or.inr ⟨q, List.mem_cons_of_mem _ hq, hqe⟩

theorem keysNodup_setOrKeepAll (now : Nat) :
    ∀ (ps : List (TestDef × AssignData)) {m : AMap}, keysNodup m →
      keysNodup (setOrKeepAll now m ps) := by
  intro ps
  induction ps with
  | nil => intro m hn; exact hn
  | cons p ps ih =>
    intro m hn
    unfold setOrKeepAll
    rw [List.foldl_cons]
    exact ih (keysNodup_setOrKeep now p.1 p.2 hn)

theorem withIdx_ge {l : List α} :
    ∀ {i j : Nat} {x : α}, (j, x) ∈ withIdx i l → i ≤ j := by
  induction l with
  | nil => intro i j x h; cases h
  | cons a l ih =>
    intro i j x h
    rcases List.mem_cons.mp h with h1 | h1
    · injection h1 with h2 _
      omega
    · have := ih h1
      omega

theorem withIdx_inj {l : List α} :
    ∀ {i j : Nat} {x1 x2 : α},
      (j, x1) ∈ withIdx i l → (j, x2) ∈ withIdx i l → x1 = x2 := by
  induction l with
  | nil => intro i j x1 x2 h; cases h
  | cons a l ih =>
    intro i j x1 x2 h1 h2
    rcases List.mem_cons.mp h1 with g1 | g1 <;> rcases List.mem_cons.mp h2 with g2 | g2
    · injection g1 with _ e1
      injection g2 with _ e2
      rw [e1, e2]
    · injection g1 with e0 _
      have := withIdx_ge g2
      omega
    · injection g2 with e0 _
      have := withIdx_ge g1
      omega
    · exact ih g1 g2

theorem withIdx_mem {l : List α} :
    ∀ {i j : Nat} {x : α}, (j, x) ∈ withIdx i l → x ∈ l := by
  induction l with
  | nil => intro i j x h; cases h
  | cons a l ih =>
    intro i j x h
    rcases List.mem_cons.mp h with h1 | h1
    · injection h1 with _ e1
      rw [← e1]
      exact List.mem_cons_self _ _
    · exact List.mem_cons_of_mem _ (ih h1)

theorem mem_withIdx_of_mem {l : List α} :
    ∀ {x : α}, x ∈ l → ∀ i : Nat, ∃ j, (j, x) ∈ withIdx i l := by
  induction l with
  | nil => intro x h; cases h
  | cons a l ih =>
    intro x h i
    rcases List.mem_cons.mp h with h1 | h1
    · exact ⟨i, by rw [h1]; exact List.mem_cons_self _ _⟩
    · rcases ih h1 (i + 1) with ⟨j, hj⟩
      exact ⟨j, List.mem_cons_of_mem _ hj⟩

theorem countP_le_one_of_pairwise_keys {p : String × TestAssignment → Bool} :
    ∀ {m : AMap}, keysNodup m →
      (∀ e1 ∈ m, ∀ e2 ∈ m, e1.1 ≠ e2.1 → ¬(p e1 = true ∧ p e2 = true)) →
      m.countP p ≤ 1 := by
  intro m
  induction m with
  | nil => intro _ _; simp
  | cons e m ih =>
    intro hn hpair
    have hn2 := (List.nodup_cons.mp hn).2
    by_cases hp : p e = true
    · have hzero : m.countP p = 0 := by
        rw [List.countP_eq_zero]
        intro e2 he2
        have hne : e.1 ≠ e2.1 := by
          intro hcontra
          exact (List.nodup_cons.mp hn).1
            (by rw [hcontra]; exact List.mem_map.mpr ⟨e2, he2, rfl⟩)
        have := hpair e (List.mem_cons_self _ _) e2 (List.mem_cons_of_mem _ he2) hne
        intro hpe2
        exact this ⟨hp, hpe2⟩
      rw [List.countP_cons, hzero]
      simp [hp]
    · rw [List.countP_cons]
      have : (if p e then 1 else 0) = 0 := by simp [hp]
      rw [this, Nat.add_zero]
      exact ih hn2 (fun e1 he1 e2 he2 =>
        hpair e1 (List.mem_cons_of_mem _ he1) e2 (List.mem_cons_of_mem _ he2))

/-- A stored assignment that counts against the (amended) mutual-exclusion
invariant: a non-control `assigned_variant` on a non-forced assignment. -/
def countedB (a : TestAssignment) : Bool :=
  !decide (a.assigned_variant = some "0") && !decide (a.mode = some "forced")

theorem countedB_sansTested (a : TestAssignment) :
    countedB (sansTested a) = countedB a := rfl

/-- Test ids are pairwise distinct (they are settings keys in the source). -/
abbrev idsNodup (tests : List TestDef) : Prop :=
  (tests.map TestDef.id).Nodup

theorem jsOrOpt_self (x : Option String) : jsOrOpt x x = x := by
  cases x with
  | none => rfl
  | some s =>
    show (if s = "" then some s else some s) = some s
    split
    · rfl
    · rfl

theorem jsOr_ne_empty (o : Option String) (d : String) (hd : d ≠ "") :
    jsOr o d ≠ "" := by
  unfold jsOr
  cases o with
  | none => exact hd
  | some s =>
    show (if s = "" then d else s) ≠ ""
    by_cases h : s = ""
    · rw [if_pos h]; exact hd
    · rw [if_neg h]; exact h

theorem mk_forced_not_counted (now : Nat) (k : String) (g : String) (t : TestDef) :
    countedB (mkTestAssignment now k (forcedAssignmentData g t)) = false := by
  unfold countedB mkTestAssignment forcedAssignmentData
  by_cases h : jsOr t.forcedVariant "0" = "0"
  · simp [h, jsOrOpt, jsOr_ne_empty t.forcedVariant "0" (by decide)]
  · simp [h, jsOrOpt, jsOr_ne_empty t.forcedVariant "0" (by decide)]

theorem mk_pureControl_not_counted (now : Nat) (k : String) (g : String)
    (t : TestDef) :
    countedB (mkTestAssignment now k (pureControlAssignmentData g t)) = false := by
  unfold countedB mkTestAssignment pureControlAssignmentData jsOrOpt
  simp

theorem mk_excluded_not_counted (now : Nat) (k : String) (g : String)
    (t : TestDef) :
    countedB (mkTestAssignment now k (excludedAssignmentData g t)) = false := by
  unfold countedB mkTestAssignment excludedAssignmentData jsOrOpt
  simp

theorem mk_chosen_fields (now : Nat) (k : String) (g : String) (t : TestDef)
    (fv : Option String) :
    (mkTestAssignment now k (chosenAssignmentData g t fv)).mode = some "probabilistic" ∧
    (mkTestAssignment now k (chosenAssignmentData g t fv)).assigned_variant = fv ∧
    (mkTestAssignment now k (chosenAssignmentData g t fv)).variant = fv := by
  refine ⟨rfl, ?_, rfl⟩
  show jsOrOpt fv fv = fv
  exact jsOrOpt_self fv

theorem hasAll_mk_forced (now : Nat) (k : String) (g : String) (t : TestDef) :
    hasAllRequired (mkTestAssignment now k (forcedAssignmentData g t)) = true := rfl

theorem hasAll_mk_pureControl (now : Nat) (k : String) (g : String) (t : TestDef) :
    hasAllRequired (mkTestAssignment now k (pureControlAssignmentData g t)) = true := rfl

theorem hasAll_mk_excluded (now : Nat) (k : String) (g : String) (t : TestDef) :
    hasAllRequired (mkTestAssignment now k (excludedAssignmentData g t)) = true := rfl

theorem hasAll_mk_chosen (now : Nat) (k : String) (g : String) (t : TestDef)
    (fv : Option String) :
    hasAllRequired (mkTestAssignment now k (chosenAssignmentData g t fv)) =
      fv.isSome := by
  unfold hasAllRequired mkTestAssignment chosenAssignmentData
  cases fv with
  | none => rfl
  | some s => simp

theorem mk_pageGroup (now : Nat) (k : String) (d : AssignData) :
    (mkTestAssignment now k d).pageGroup = d.pageGroup := rfl

theorem mk_timestamp (now : Nat) (k : String) (d : AssignData) :
    (mkTestAssignment now k d).timestamp = now := rfl

theorem withIdx_map_snd : ∀ (i : Nat) (l : List α),
    (withIdx i l).map Prod.snd = l := by
  intro i l
  induction l generalizing i with
  | nil => rfl
  | cons a l ih =>
    unfold withIdx
    rw [List.map_cons]
    rw [ih (i + 1)]

theorem jsIndex_isSome {arr : List String} {i : ℤ} (h0 : 0 ≤ i)
    (hlt : i.toNat < arr.length) : (jsIndex arr i).isSome = true := by
  unfold jsIndex
  rw [if_pos h0]
  rw [List.get?_eq_get hlt]
  rfl

theorem jsFloor_bounds {u : ℚ} (h0 : 0 ≤ u) (h1 : u < 1) {n : Nat} (hn : 0 < n) :
    0 ≤ jsFloor (u * (n : ℚ)) ∧ (jsFloor (u * (n : ℚ))).toNat < n := by
  have hnn : (0 : ℚ) < (n : ℚ) := by exact_mod_cast hn
  have hge : 0 ≤ jsFloor (u * (n : ℚ)) := by
    unfold jsFloor
    exact Int.floor_nonneg.mpr (mul_nonneg h0 (le_of_lt hnn))
  have hlt : jsFloor (u * (n : ℚ)) < (n : ℤ) := by
    unfold jsFloor
    rw [Int.floor_lt]
    push_cast
    calc u * (n : ℚ) < 1 * (n : ℚ) := by
          exact mul_lt_mul_of_pos_right h1 hnn
      _ = (n : ℚ) := one_mul _
  exact ⟨hge, by omega⟩

/-- The unforced tests of a group, in catalog order. -/
def unforcedOf (tests : List TestDef) : List TestDef :=
  tests.filter (fun t => t.mode = "test")

/-- The chosen index of the in-group draw (`Math.floor(Math.random() * n)`). -/
def chosenIndexOf (tests : List TestDef) (u1 : ℚ) : ℤ :=
  jsFloor (u1 * ((unforcedOf tests).length : ℚ))

/-- The variant value the winning test receives
(`arr[Math.floor(Math.random() * arr.length)]`). -/
def chosenVariantOf (t : TestDef) (u2 : ℚ) : Option String :=
  jsIndex t.possibleNonZeroVariants
    (jsFloor (u2 * (t.possibleNonZeroVariants.length : ℚ)))

theorem mem_assignGroupPairs {g : String} {tests : List TestDef} {traffic : ℤ}
    {r u1 u2 : ℚ} {t : TestDef} {d : AssignData}
    (h : (t, d) ∈ assignGroupPairs g tests traffic r u1 u2) :
    t ∈ tests ∧
      ((t.mode = "forced" ∧ d = forcedAssignmentData g t) ∨
        (t.mode = "test" ∧
          (d = pureControlAssignmentData g t ∨
            d = excludedAssignmentData g t ∨
            (d = chosenAssignmentData g t (chosenVariantOf t u2) ∧
              ∃ j : Nat, (j, t) ∈ withIdx 0 (unforcedOf tests) ∧
                (j : ℤ) = chosenIndexOf tests u1)))) := by
  unfold assignGroupPairs at h
  have hforced : ∀ hf : (t, d) ∈ (tests.filter (fun x => x.mode = "forced")).map
      (fun ft => (ft, forcedAssignmentData g ft)),
      t ∈ tests ∧ (t.mode = "forced" ∧ d = forcedAssignmentData g t) := by
    intro hf
    rcases List.mem_map.mp hf with ⟨ft, hft, heq⟩
    have h1 : ft = t := congrArg Prod.fst heq
    have h2 : d = forcedAssignmentData g ft := (congrArg Prod.snd heq).symm
    rw [← h1]
    exact ⟨(List.mem_filter.mp hft).1, by simpa using (List.mem_filter.mp hft).2, h2⟩
  split at h
  · rcases hforced h with ⟨h1, h2⟩
    exact ⟨h1, Or.inl h2⟩
  · split at h
    · rcases List.mem_append.mp h with hf | hu
      · rcases hforced hf with ⟨h1, h2⟩
        exact ⟨h1, Or.inl h2⟩
      · rcases List.mem_map.mp hu with ⟨t0, ht0, heq⟩
        have h1 : t0 = t := congrArg Prod.fst heq
        have h2 : d = pureControlAssignmentData g t0 := (congrArg Prod.snd heq).symm
        rw [← h1]
        refine ⟨(List.mem_filter.mp ht0).1, Or.inr ⟨?_, Or.inl h2⟩⟩
        simpa using (List.mem_filter.mp ht0).2
    · rcases List.mem_append.mp h with hf | hu
      · rcases hforced hf with ⟨h1, h2⟩
        exact ⟨h1, Or.inl h2⟩
      · rcases List.mem_map.mp hu with ⟨p, hp, heq⟩
        by_cases hidx : (p.1 : ℤ) =
            jsFloor (u1 * ((tests.filter (fun x => x.mode = "test")).length : ℚ))
        · rw [if_pos hidx] at heq
          have h1 : p.2 = t := congrArg Prod.fst heq
          have h2 : d = chosenAssignmentData g p.2
              (jsIndex p.2.possibleNonZeroVariants
                (jsFloor (u2 * (p.2.possibleNonZeroVariants.length : ℚ)))) :=
            (congrArg Prod.snd heq).symm
          rw [← h1]
          have hmem : p.2 ∈ tests.filter (fun x => x.mode = "test") := withIdx_mem hp
          refine ⟨(List.mem_filter.mp hmem).1,
            Or.inr ⟨by simpa using (List.mem_filter.mp hmem).2,
              Or.inr (Or.inr ⟨h2, p.1, hp, hidx⟩)⟩⟩
        · rw [if_neg hidx] at heq
          have h1 : p.2 = t := congrArg Prod.fst heq
          have h2 : d = excludedAssignmentData g p.2 := (congrArg Prod.snd heq).symm
          rw [← h1]
          have hmem : p.2 ∈ tests.filter (fun x => x.mode = "test") := withIdx_mem hp
          refine ⟨(List.mem_filter.mp hmem).1,
            Or.inr ⟨by simpa using (List.mem_filter.mp hmem).2, Or.inr (Or.inl h2)⟩⟩

theorem assignGroupPairs_complete {g : String} {tests : List TestDef}
    {traffic : ℤ} {r u1 u2 : ℚ} {t : TestDef} (ht : t ∈ tests)
    (hmode : t.mode = "test") :
    ∃ d, (t, d) ∈ assignGroupPairs g tests traffic r u1 u2 := by
  have htf : t ∈ tests.filter (fun x => x.mode = "test") :=
    List.mem_filter.mpr ⟨ht, by simp [hmode]⟩
  have hlen : ¬((tests.filter (fun x => x.mode = "test")).length = 0) := by
    intro h0
    rw [List.length_eq_zero] at h0
    rw [h0] at htf
    cases htf
  unfold assignGroupPairs
  rw [if_neg hlen]
  split
  · refine ⟨pureControlAssignmentData g t, List.mem_append.mpr (Or.inr ?_)⟩
    exact List.mem_map.mpr ⟨t, htf, rfl⟩
  · rcases mem_withIdx_of_mem htf 0 with ⟨j, hj⟩
    by_cases hidx : ((j : Nat) : ℤ) =
        jsFloor (u1 * ((tests.filter (fun x => x.mode = "test")).length : ℚ))
    · refine ⟨chosenAssignmentData g t
        (jsIndex t.possibleNonZeroVariants
          (jsFloor (u2 * (t.possibleNonZeroVariants.length : ℚ)))),
        List.mem_append.mpr (Or.inr ?_)⟩
      refine List.mem_map.mpr ⟨(j, t), hj, ?_⟩
      rw [if_pos hidx]
    · refine ⟨excludedAssignmentData g t, List.mem_append.mpr (Or.inr ?_)⟩
      refine List.mem_map.mpr ⟨(j, t), hj, ?_⟩
      rw [if_neg hidx]

theorem pairIds_map_mk {β : Type} (l : List β) (f : β → TestDef)
    (dta : β → AssignData) :
    pairIds (l.map (fun x => (f x, dta x))) = l.map (fun x => (f x).id) := by
  unfold pairIds
  rw [List.map_map]
  rfl

theorem pairIds_assignGroupPairs_nodup {g : String} {tests : List TestDef}
    {traffic : ℤ} {r u1 u2 : ℚ} (hids : idsNodup tests) :
    (pairIds (assignGroupPairs g tests traffic r u1 u2)).Nodup := by
  have hforcedIds : ((tests.filter (fun x => x.mode = "forced")).map TestDef.id).Nodup :=
    List.Nodup.sublist (List.Sublist.map TestDef.id (List.filter_sublist tests)) hids
  have hunforcedIds : ((tests.filter (fun x => x.mode = "test")).map TestDef.id).Nodup :=
    List.Nodup.sublist (List.Sublist.map TestDef.id (List.filter_sublist tests)) hids
  have hinj := List.inj_on_of_nodup_map hids
  have hdisj : ∀ x, x ∈ (tests.filter (fun q => q.mode = "forced")).map TestDef.id →
      x ∈ (tests.filter (fun q => q.mode = "test")).map TestDef.id → False := by
    intro x hx1 hx2
    rcases List.mem_map.mp hx1 with ⟨t1, ht1, he1⟩
    rcases List.mem_map.mp hx2 with ⟨t2, ht2, he2⟩
    have h1 := List.mem_filter.mp ht1
    have h2 := List.mem_filter.mp ht2
    have heq12 : t1 = t2 := hinj h1.1 h2.1 (by rw [he1, he2])
    rw [heq12] at h1
    have hm1 : t2.mode = "forced" := by simpa using h1.2
    have hm2 : t2.mode = "test" := by simpa using h2.2
    rw [hm1] at hm2
    exact absurd hm2 (by decide)
  have hforcedPairIds : pairIds ((tests.filter (fun x => x.mode = "forced")).map
      (fun ft => (ft, forcedAssignmentData g ft))) =
      (tests.filter (fun x => x.mode = "forced")).map TestDef.id :=
    pairIds_map_mk _ _ _
  unfold assignGroupPairs
  split
  · rw [hforcedPairIds]
    exact hforcedIds
  · have happend : ∀ l2 : List (TestDef × AssignData),
        pairIds l2 = (tests.filter (fun x => x.mode = "test")).map TestDef.id →
        (pairIds ((tests.filter (fun x => x.mode = "forced")).map
          (fun ft => (ft, forcedAssignmentData g ft)) ++ l2)).Nodup := by
      intro l2 hl2
      have hsplit : pairIds ((tests.filter (fun x => x.mode = "forced")).map
          (fun ft => (ft, forcedAssignmentData g ft)) ++ l2) =
          pairIds ((tests.filter (fun x => x.mode = "forced")).map
            (fun ft => (ft, forcedAssignmentData g ft))) ++ pairIds l2 := by
        unfold pairIds
        rw [List.map_append]
      rw [hsplit, hforcedPairIds, hl2]
      rw [List.nodup_append]
      exact ⟨hforcedIds, hunforcedIds, hdisj⟩
    split
    · exact happend _ (pairIds_map_mk _ _ _)
    · apply happend
      unfold pairIds
      rw [List.map_map]
      have hcongr : ((withIdx 0 (tests.filter (fun x => x.mode = "test"))).map
          ((fun p : TestDef × AssignData => p.1.id) ∘ (fun p : Nat × TestDef =>
            if (p.1 : ℤ) = jsFloor (u1 * ((tests.filter (fun x => x.mode = "test")).length : ℚ))
            then (p.2, chosenAssignmentData g p.2
              (jsIndex p.2.possibleNonZeroVariants
                (jsFloor (u2 * (p.2.possibleNonZeroVariants.length : ℚ)))))
            else (p.2, excludedAssignmentData g p.2)))) =
          (withIdx 0 (tests.filter (fun x => x.mode = "test"))).map
            (fun p => p.2.id) := by
        apply List.map_congr_left
        intro p _
        by_cases hidx : (p.1 : ℤ) =
            jsFloor (u1 * ((tests.filter (fun x => x.mode = "test")).length : ℚ))
        · simp only [Function.comp_apply, if_pos hidx]
        · simp only [Function.comp_apply, if_neg hidx]
      rw [hcongr]
      have h2 : (withIdx 0 (tests.filter (fun x => x.mode = "test"))).map
          (fun p => p.2.id) =
          ((withIdx 0 (tests.filter (fun x => x.mode = "test"))).map Prod.snd).map
            TestDef.id := by
        rw [List.map_map]
        rfl
      rw [h2, withIdx_map_snd]

theorem mgetS_some_elim {m : AMap} {k : String} {a : TestAssignment}
    (h : mgetS m k = some a) :
    ∃ araw, mget m k = some araw ∧ sansTested araw = a := by
  unfold mgetS at h
  cases h1 : mget m k with
  | none => rw [h1] at h; cases h
  | some b =>
    rw [h1] at h
    refine ⟨b, rfl, ?_⟩
    change some (sansTested b) = some a at h
    injection h

theorem mgetS_none_iff {m : AMap} {k : String} :
    mgetS m k = none ↔ mget m k = none := by
  unfold mgetS
  cases mget m k with
  | none => simp
  | some b => simp

theorem validAt_eq_isValid_of_mgetS {now : Nat} {m : AMap} {k : String}
    {a : TestAssignment} (h : mgetS m k = some a) :
    validAt now m k = isValid now a := by
  rcases mgetS_some_elim h with ⟨araw, hraw, hs⟩
  rw [validAt_eq_isValidOpt, hraw]
  show isValid now araw = isValid now a
  rw [← hs, isValid_sansTested]

theorem validAt_false_of_mgetS_none {now : Nat} {m : AMap} {k : String}
    (h : mgetS m k = none) : validAt now m k = false := by
  rw [validAt_eq_isValidOpt, mgetS_none_iff.mp h]
  rfl

theorem countedB_congr {a b : TestAssignment} (h : sansTested a = sansTested b) :
    countedB a = countedB b := by
  rw [← countedB_sansTested a, h, countedB_sansTested]

theorem countedB_false_iff (a : TestAssignment) :
    countedB a = false ↔
      (a.assigned_variant = some "0" ∨ a.mode = some "forced") := by
  unfold countedB
  by_cases h1 : a.assigned_variant = some "0"
  · simp [h1]
  · by_cases h2 : a.mode = some "forced"
    · simp [h1, h2]
    · simp [h1, h2]

theorem countedB_true_iff (a : TestAssignment) :
    countedB a = true ↔
      (¬a.assigned_variant = some "0" ∧ ¬a.mode = some "forced") := by
  unfold countedB
  by_cases h1 : a.assigned_variant = some "0"
  · simp [h1]
  · by_cases h2 : a.mode = some "forced"
    · simp [h1, h2]
    · simp [h1, h2]

theorem forcedAssignmentData_pageGroup (g : String) (t : TestDef) :
    (forcedAssignmentData g t).pageGroup = some g := rfl

theorem pureControlAssignmentData_pageGroup (g : String) (t : TestDef) :
    (pureControlAssignmentData g t).pageGroup = some g := rfl

theorem excludedAssignmentData_pageGroup (g : String) (t : TestDef) :
    (excludedAssignmentData g t).pageGroup = some g := rfl

theorem chosenAssignmentData_pageGroup (g : String) (t : TestDef)
    (fv : Option String) : (chosenAssignmentData g t fv).pageGroup = some g := rfl

/-- A stored assignment holds a counted (non-control, non-forced) variant at
key `k`. -/
def countedAt (m : AMap) (k : String) : Prop :=
  ∃ a, mgetS m k = some a ∧ countedB a = true

/-- Inductive invariant of the per-group bucketing loop (keep variant):
every entry belongs to one of the group's tests and carries the group's page
group; entries of forced tests never count against mutual exclusion; entries
of unforced tests, when present, all share one creation timestamp and have
every required field; and no two distinct test ids both hold counted
assignments. -/
structure GroupInv (g : String) (tests : List TestDef) (m : AMap) : Prop where
  nodupKeys : keysNodup m
  classify : ∀ e ∈ m, ∃ t ∈ tests, e.1 = t.id ∧ e.2.pageGroup = some g ∧
    ((t.mode = "forced" ∧
        (e.2.assigned_variant = some "0" ∨ e.2.mode = some "forced")) ∨
      t.mode = "test")
  uniform : (∀ t ∈ tests, t.mode = "test" → mgetS m t.id = none) ∨
    (∃ T : Nat, ∀ t ∈ tests, t.mode = "test" →
      ∃ a, mgetS m t.id = some a ∧ a.timestamp = T ∧ hasAllRequired a = true)
  amo : ∀ t1 ∈ tests, ∀ t2 ∈ tests, t1.id ≠ t2.id →
    countedAt m t1.id → countedAt m t2.id → False

theorem GroupInv_empty (g : String) (tests : List TestDef) :
    GroupInv g tests [] := by
  refine ⟨List.nodup_nil, ?_, Or.inl ?_, ?_⟩
  · intro e he
    cases he
  · intro t _ _
    rfl
  · intro t1 _ t2 _ _ hc1 _
    rcases hc1 with ⟨a, ha, _⟩
    cases ha

theorem hasAll_pair_data {g : String} {tests : List TestDef} {traffic : ℤ}
    {r u1 u2 : ℚ} {t : TestDef} {d : AssignData}
    (hd : (t, d) ∈ assignGroupPairs g tests traffic r u1 u2)
    (harr : ∀ x ∈ tests, x.mode = "test" → x.possibleNonZeroVariants ≠ [])
    (hu2a : 0 ≤ u2) (hu2b : u2 < 1) (now : Nat) (k : String) :
    hasAllRequired (mkTestAssignment now k d) = true := by
  rcases mem_assignGroupPairs hd with ⟨ht, hcases⟩
  rcases hcases with ⟨_, hdf⟩ | ⟨hmode, hdu⟩
  · rw [hdf]
    exact hasAll_mk_forced now k g t
  · rcases hdu with hdp | hde | ⟨hdc, _⟩
    · rw [hdp]
      exact hasAll_mk_pureControl now k g t
    · rw [hde]
      exact hasAll_mk_excluded now k g t
    · rw [hdc, hasAll_mk_chosen]
      unfold chosenVariantOf
      have hne := harr t ht hmode
      have hlen : 0 < t.possibleNonZeroVariants.length :=
        List.length_pos.mpr hne
      rcases jsFloor_bounds hu2a hu2b hlen with ⟨h0, h1⟩
      exact jsIndex_isSome h0 h1

theorem pair_data_pageGroup {g : String} {tests : List TestDef} {traffic : ℤ}
    {r u1 u2 : ℚ} {t : TestDef} {d : AssignData}
    (hd : (t, d) ∈ assignGroupPairs g tests traffic r u1 u2) :
    d.pageGroup = some g := by
  rcases mem_assignGroupPairs hd with ⟨_, hcases⟩
  rcases hcases with ⟨_, hdf⟩ | ⟨_, hdu⟩
  · rw [hdf]; rfl
  · rcases hdu with hdp | hde | ⟨hdc, _⟩
    · rw [hdp]; rfl
    · rw [hde]; rfl
    · rw [hdc]; rfl

theorem GroupInv_assignGroup {g : String} {tests : List TestDef} {m : AMap}
    (now : Nat) (traffic : ℤ) (r u1 u2 : ℚ)
    (hids : idsNodup tests)
    (harr : ∀ x ∈ tests, x.mode = "test" → x.possibleNonZeroVariants ≠ [])
    (hu2a : 0 ≤ u2) (hu2b : u2 < 1)
    (hInv : GroupInv g tests m) :
    GroupInv g tests (assignGroup now m g tests traffic r u1 u2) := by
  have hndps : (pairIds (assignGroupPairs g tests traffic r u1 u2)).Nodup :=
    pairIds_assignGroupPairs_nodup hids
  have hinj := List.inj_on_of_nodup_map hids
  show GroupInv g tests (setOrKeepAll now m (assignGroupPairs g tests traffic r u1 u2))
  refine ⟨?_, ?_, ?_, ?_⟩
  · exact keysNodup_setOrKeepAll now _ hInv.nodupKeys
  · -- classification of every entry of the result
    intro e he
    rcases mem_setOrKeepAll he with ⟨a0, ha0, hst⟩ | ⟨p, hp, hid, hst⟩
    · rcases hInv.classify (e.1, a0) ha0 with ⟨t, ht, hid, hpg, hcls⟩
      obtain ⟨-, -, -, hmode_eq, hpg_eq, -, -, hassigned_eq⟩ := sansTested_fields hst
      refine ⟨t, ht, hid, ?_, ?_⟩
      · rw [hpg_eq]
        exact hpg
      · rcases hcls with ⟨hf, hcond⟩ | hTest
        · refine Or.inl ⟨hf, ?_⟩
          rcases hcond with h1 | h1
          · exact Or.inl (by rw [hassigned_eq]; exact h1)
          · exact Or.inr (by rw [hmode_eq]; exact h1)
        · exact Or.inr hTest
    · rcases mem_assignGroupPairs hp with ⟨htp, hcases⟩
      obtain ⟨-, -, -, hmode_eq, hpg_eq, -, -, hassigned_eq⟩ := sansTested_fields hst
      refine ⟨p.1, htp, hid, ?_, ?_⟩
      · rw [hpg_eq, mk_pageGroup]
        exact pair_data_pageGroup hp
      · rcases hcases with ⟨hf, hdf⟩ | ⟨hmode, -⟩
        · refine Or.inl ⟨hf, ?_⟩
          have hcB : countedB (mkTestAssignment now p.1.id p.2) = false := by
            rw [hdf]
            exact mk_forced_not_counted now p.1.id g p.1
          have hcB2 : countedB e.2 = false := by
            rw [countedB_congr hst]
            exact hcB
          exact (countedB_false_iff e.2).mp hcB2
        · exact Or.inr hmode
  · -- uniform timestamps for the unforced entries
    by_cases hex : ∃ x ∈ tests, x.mode = "test"
    · right
      have hsetAll : (∀ x ∈ tests, x.mode = "test" → validAt now m x.id = false) →
          ∀ x ∈ tests, x.mode = "test" →
            ∃ a, mgetS (setOrKeepAll now m
                (assignGroupPairs g tests traffic r u1 u2)) x.id = some a ∧
              a.timestamp = now ∧ hasAllRequired a = true := by
        intro hv x hx hmx
        rcases assignGroupPairs_complete hx hmx with ⟨d, hd⟩
        have hchar :=
          mgetS_setOrKeepAll_pair now (assignGroupPairs g tests traffic r u1 u2)
            m x d hndps hd
        rw [hchar, if_neg (by simp [hv x hx hmx])]
        refine ⟨sansTested (mkTestAssignment now x.id d), rfl, rfl, ?_⟩
        rw [hasAllRequired_sansTested]
        exact hasAll_pair_data hd harr hu2a hu2b now x.id
      rcases hInv.uniform with hnone | ⟨T, hT⟩
      · refine ⟨now, hsetAll ?_⟩
        intro x hx hmx
        exact validAt_false_of_mgetS_none (hnone x hx hmx)
      · by_cases hval : now - T < ASSIGNMENT_TTL
        · refine ⟨T, ?_⟩
          intro x hx hmx
          rcases hT x hx hmx with ⟨a, ha, hts, hha⟩
          have hvx : validAt now m x.id = true := by
            rw [validAt_eq_isValid_of_mgetS ha]
            unfold isValid
            rw [hha, hts]
            simp [hval]
          rcases assignGroupPairs_complete hx hmx with ⟨d, hd⟩
          have hchar :=
            mgetS_setOrKeepAll_pair now (assignGroupPairs g tests traffic r u1 u2)
              m x d hndps hd
          rw [hchar, if_pos hvx]
          exact ⟨a, ha, hts, hha⟩
        · refine ⟨now, hsetAll ?_⟩
          intro x hx hmx
          rcases hT x hx hmx with ⟨a, ha, hts, hha⟩
          rw [validAt_eq_isValid_of_mgetS ha]
          unfold isValid
          rw [hha, hts]
          simp [hval]
    · left
      intro x hx hmx
      exact absurd ⟨x, hx, hmx⟩ hex
  · -- at most one counted assignment across distinct test ids
    intro t1 ht1 t2 ht2 hne hc1 hc2
    have hchar : ∀ x ∈ tests,
        countedAt (setOrKeepAll now m (assignGroupPairs g tests traffic r u1 u2)) x.id →
        (countedAt m x.id ∧ (validAt now m x.id = true ∨
            ¬∃ d, (x, d) ∈ assignGroupPairs g tests traffic r u1 u2)) ∨
        (x.mode = "test" ∧ validAt now m x.id = false ∧
          ∃ j : Nat, (j, x) ∈ withIdx 0 (unforcedOf tests) ∧
            (j : ℤ) = chosenIndexOf tests u1) := by
      intro x hx hcx
      by_cases hpx : ∃ d, (x, d) ∈ assignGroupPairs g tests traffic r u1 u2
      · rcases hpx with ⟨d, hd⟩
        have hch :=
          mgetS_setOrKeepAll_pair now (assignGroupPairs g tests traffic r u1 u2)
            m x d hndps hd
        rcases hcx with ⟨a, ha, hcb⟩
        by_cases hvx : validAt now m x.id = true
        · rw [hch, if_pos hvx] at ha
          exact Or.inl ⟨⟨a, ha, hcb⟩, Or.inl hvx⟩
        · have hvx2 : validAt now m x.id = false := by
            cases hb : validAt now m x.id
            · rfl
            · exact absurd hb hvx
          rw [hch, if_neg hvx] at ha
          injection ha with ha2
          have hcmk : countedB (mkTestAssignment now x.id d) = true := by
            rw [← ha2, countedB_sansTested] at hcb
            exact hcb
          rcases mem_assignGroupPairs hd with ⟨-, hcases⟩
          rcases hcases with ⟨-, hdf⟩ | ⟨hmode, hdu⟩
          · rw [hdf, mk_forced_not_counted now x.id g x] at hcmk
            exact absurd hcmk (by decide)
          · rcases hdu with hdp | hde | ⟨-, j, hj, hjeq⟩
            · rw [hdp, mk_pureControl_not_counted now x.id g x] at hcmk
              exact absurd hcmk (by decide)
            · rw [hde, mk_excluded_not_counted now x.id g x] at hcmk
              exact absurd hcmk (by decide)
            · exact Or.inr ⟨hmode, hvx2, j, hj, hjeq⟩
      · have hnotouch : ∀ p ∈ assignGroupPairs g tests traffic r u1 u2,
            p.1.id ≠ x.id := by
          intro p hp hpe
          have hptests : p.1 ∈ tests := (mem_assignGroupPairs hp).1
          have hpeq : p.1 = x := hinj hptests hx hpe
          refine hpx ⟨p.2, ?_⟩
          rw [← hpeq]
          exact hp
        have heq := mgetS_setOrKeepAll_notin now
          (assignGroupPairs g tests traffic r u1 u2) m x.id hnotouch
        rcases hcx with ⟨a, ha, hcb⟩
        rw [heq] at ha
        exact Or.inl ⟨⟨a, ha, hcb⟩, Or.inr hpx⟩
    have hmodeTest : ∀ x ∈ tests, countedAt m x.id → x.mode = "test" := by
      rintro x hx ⟨a, ha, hcb⟩
      rcases mgetS_some_elim ha with ⟨araw, hraw, hs⟩
      have hmem := mget_mem hraw
      rcases hInv.classify (x.id, araw) hmem with ⟨t0, ht0, hid0, -, hcls⟩
      have hteq : t0 = x := hinj ht0 hx hid0.symm
      rcases hcls with ⟨-, hcond⟩ | hTest
      · have hfb : countedB araw = false := (countedB_false_iff araw).mpr hcond
        have hab : countedB a = false := by
          rw [← hs, countedB_sansTested]
          exact hfb
        rw [hab] at hcb
        exact absurd hcb (by decide)
      · rw [← hteq]
        exact hTest
    have hmixed : ∀ x ∈ tests, ∀ y ∈ tests,
        countedAt m x.id →
        (validAt now m x.id = true ∨
          ¬∃ d, (x, d) ∈ assignGroupPairs g tests traffic r u1 u2) →
        y.mode = "test" → validAt now m y.id = false → False := by
      intro x hx y hy hcx hvx hmy hvy
      have hmx := hmodeTest x hx hcx
      rcases hInv.uniform with hnone | ⟨T, hT⟩
      · rcases hcx with ⟨a, ha, -⟩
        rw [hnone x hx hmx] at ha
        cases ha
      · rcases hT x hx hmx with ⟨a1, ha1, hts1, hha1⟩
        rcases hT y hy hmy with ⟨a2, ha2, hts2, hha2⟩
        have hnotv : ¬(now - T < ASSIGNMENT_TTL) := by
          intro hlt
          have hvy2 : validAt now m y.id = true := by
            rw [validAt_eq_isValid_of_mgetS ha2]
            unfold isValid
            rw [hha2, hts2]
            simp [hlt]
          rw [hvy2] at hvy
          exact absurd hvy (by decide)
        have hvxfalse : validAt now m x.id = false := by
          rw [validAt_eq_isValid_of_mgetS ha1]
          unfold isValid
          rw [hha1, hts1]
          simp [hnotv]
        rcases hvx with hvxt | hnopair
        · rw [hvxfalse] at hvxt
          exact absurd hvxt (by decide)
        · rcases assignGroupPairs_complete hx hmx with ⟨d, hd⟩
          exact hnopair ⟨d, hd⟩
    rcases hchar t1 ht1 hc1 with ⟨hk1, hv1⟩ | ⟨hm1, hvf1, j1, hj1, hjeq1⟩
    · rcases hchar t2 ht2 hc2 with ⟨hk2, hv2⟩ | ⟨hm2, hvf2, j2, hj2, hjeq2⟩
      · exact hInv.amo t1 ht1 t2 ht2 hne hk1 hk2
      · exact hmixed t1 ht1 t2 ht2 hk1 hv1 hm2 hvf2
    · rcases hchar t2 ht2 hc2 with ⟨hk2, hv2⟩ | ⟨hm2, hvf2, j2, hj2, hjeq2⟩
      · exact hmixed t2 ht2 t1 ht1 hk2 hv2 hm1 hvf1
      · have hj12 : j1 = j2 := by
          have h12 : (j1 : ℤ) = (j2 : ℤ) := by rw [hjeq1, hjeq2]
          exact_mod_cast h12
        rw [hj12] at hj1
        have ht12 : t1 = t2 := withIdx_inj hj1 hj2
        rw [ht12] at hne
        exact hne rfl

theorem GroupInv_runSeq (g : String) (tests : List TestDef)
    (hids : idsNodup tests)
    (harr : ∀ x ∈ tests, x.mode = "test" → x.possibleNonZeroVariants ≠ []) :
    ∀ ds : List Draw, (∀ d ∈ ds, 0 ≤ d.u2 ∧ d.u2 < 1) →
      GroupInv g tests (runSeq g tests ds) := by
  have main : ∀ (ds : List Draw) (m : AMap), (∀ d ∈ ds, 0 ≤ d.u2 ∧ d.u2 < 1) →
      GroupInv g tests m →
      GroupInv g tests (ds.foldl
        (fun mm d => assignGroup d.now mm g tests d.traffic d.r d.u1 d.u2) m) := by
    intro ds
    induction ds with
    | nil => intro m _ h; exact h
    | cons d ds ih =>
      intro m hb h
      rw [List.foldl_cons]
      refine ih _ (fun q hq => hb q (List.mem_cons_of_mem _ hq)) ?_
      exact GroupInv_assignGroup d.now d.traffic d.r d.u1 d.u2 hids harr
        (hb d (List.mem_cons_self _ _)).1 (hb d (List.mem_cons_self _ _)).2 h
  intro ds hb
  exact main ds [] hb (GroupInv_empty g tests)

theorem countP_le_one_of_GroupInv {g : String} {tests : List TestDef} {m : AMap}
    (hids : idsNodup tests) (hInv : GroupInv g tests m) :
    m.countP (fun e => countedB e.2) ≤ 1 := by
  have hinj := List.inj_on_of_nodup_map hids
  apply countP_le_one_of_pairwise_keys hInv.nodupKeys
  rintro e1 he1 e2 he2 hne ⟨hp1, hp2⟩
  rcases hInv.classify e1 he1 with ⟨t1, ht1, hid1, -, -⟩
  rcases hInv.classify e2 he2 with ⟨t2, ht2, hid2, -, -⟩
  have hg1 : mget m e1.1 = some e1.2 := by
    apply mget_eq_of_mem hInv.nodupKeys
    cases e1
    exact he1
  have hg2 : mget m e2.1 = some e2.2 := by
    apply mget_eq_of_mem hInv.nodupKeys
    cases e2
    exact he2
  have hc1 : countedAt m t1.id := by
    refine ⟨sansTested e1.2, ?_, ?_⟩
    · unfold mgetS
      rw [← hid1, hg1]
      rfl
    · rw [countedB_sansTested]
      exact hp1
  have hc2 : countedAt m t2.id := by
    refine ⟨sansTested e2.2, ?_, ?_⟩
    · unfold mgetS
      rw [← hid2, hg2]
      rfl
    · rw [countedB_sansTested]
      exact hp2
  have hneid : t1.id ≠ t2.id := by
    rw [← hid1, ← hid2]
    exact hne
  exact hInv.amo t1 ht1 t2 ht2 hneid hc1 hc2

/-- C1 counterexample fixture: two tests pinned to non-control variants in the
same page-group. -/
def forcedTest1 : TestDef :=
  { id := "F1", mode := "forced", forcedVariant := some "1", location := "g",
    testName := "", possibleNonZeroVariants := ["1"] }

/-- Second forced fixture test. -/
def forcedTest2 : TestDef :=
  { id := "F2", mode := "forced", forcedVariant := some "2", location := "g",
    testName := "", possibleNonZeroVariants := ["1"] }

/-- C1: the claim as stated is false on the code.  After a single bucketing
run of group `"g"` whose tests are two merchant-forced tests (variants `"1"`
and `"2"`), the group holds two stored assignments with
`assigned_variant ≠ "0"`: forced tests are assigned independently, so mutual
exclusion does not cover them. -/
theorem c1_counterexample :
    (runSeq "g" [forcedTest1, forcedTest2]
        [{ now := 0, traffic := 0, r := 0, u1 := 0, u2 := 0 }]).countP
      (fun e => decide (groupKey e.2 = "g") &&
        !decide (e.2.assigned_variant = some "0")) = 2 := by
  decide

/-- C1 (amended): for every page-group, after any sequence of bucketing runs
of `assignGroup` over the group's tests starting from an empty store, at most
one stored assignment in that group that is not merchant-forced
(`mode ≠ "forced"`) has `assigned_variant ≠ "0"`.  Hypotheses: test ids are
distinct, every unforced test has a non-empty variant list (as
`loadActiveTestsFromSettings` guarantees), and each run's variant-pick draw
lies in `[0,1)` (as `Math.random` guarantees). -/
theorem c1_amended_theorem (g : String) (tests : List TestDef) (ds : List Draw)
    (hids : idsNodup tests)
    (harr : ∀ x ∈ tests, x.mode = "test" → x.possibleNonZeroVariants ≠ [])
    (hdraw : ∀ d ∈ ds, 0 ≤ d.u2 ∧ d.u2 < 1) :
    ∀ gk : String, (runSeq g tests ds).countP
      (fun e => decide (groupKey e.2 = gk) && countedB e.2) ≤ 1 := by
  intro gk
  have hInv := GroupInv_runSeq g tests hids harr ds hdraw
  calc (runSeq g tests ds).countP
        (fun e => decide (groupKey e.2 = gk) && countedB e.2)
      ≤ (runSeq g tests ds).countP (fun e => countedB e.2) := by
        apply List.countP_mono_left
        intro e _ hb
        exact (Bool.and_eq_true _ _ |>.mp hb).2
    _ ≤ 1 := countP_le_one_of_GroupInv hids hInv

/-- Unforced fixture test used by witnesses. -/
def unforcedTestA : TestDef :=
  { id := "A", mode := "test", forcedVariant := none, location := "g",
    testName := "", possibleNonZeroVariants := ["1", "2"] }

/-- Second unforced fixture test used by witnesses. -/
def unforcedTestB : TestDef :=
  { id := "B", mode := "test", forcedVariant := none, location := "g",
    testName := "", possibleNonZeroVariants := ["1", "2"] }

theorem c1_amended_witness :
    (runSeq "g" [unforcedTestA, unforcedTestB]
        [{ now := 0, traffic := 100, r := 0, u1 := 0, u2 := 0 },
         { now := 5, traffic := 0, r := 0, u1 := 0, u2 := 0 }]).countP
      (fun e => decide (groupKey e.2 = "g") && countedB e.2) ≤ 1 :=
  c1_amended_theorem "g" [unforcedTestA, unforcedTestB]
    [{ now := 0, traffic := 100, r := 0, u1 := 0, u2 := 0 },
     { now := 5, traffic := 0, r := 0, u1 := 0, u2 := 0 }]
    (by decide) (by decide) (by decide) "g"

/-- C4 fixture: a currently valid stored assignment (variant `"1"`) for test
id `"A"`. -/
def storedAsgA : TestAssignment :=
  { testId := "A", variant := some "1", type := some "test",
    mode := some "probabilistic", pageGroup := some "g", timestamp := 0,
    name := "", tested_variant := some "1", assigned_variant := some "1" }

/-- C4 fixture: test `"A"` pinned to variant `"1"`. -/
def forcedTestA1 : TestDef :=
  { id := "A", mode := "forced", forcedVariant := some "1", location := "g",
    testName := "", possibleNonZeroVariants := ["1"] }

/-- C4 fixture: test `"A"` pinned to variant `"2"`. -/
def forcedTestA2 : TestDef :=
  { id := "A", mode := "forced", forcedVariant := some "2", location := "g",
    testName := "", possibleNonZeroVariants := ["1"] }

/-- C4 fixture: the fresh forced assignment that the legacy bucketing run
stores over the still-valid `"1"` assignment. -/
def overwrittenAsgA : TestAssignment :=
  { testId := "A", variant := some "2", type := some "test",
    mode := some "forced", pageGroup := some "g", timestamp := 5,
    name := "", tested_variant := some "2", assigned_variant := some "2" }

/-- C4: the claim as stated is false on the code.  First conjunct: in the
`ABTestingProject/public/ab-testing.js` implementation (`Legacy`),
`setOrKeepAssignment` calls `setAssignment` unconditionally, so re-running
`assignGroup` replaces a currently valid `"1"` assignment for test `"A"` with
a fresh `"2"` assignment.  Second conjunct: even in the keeping
`public/ab-testing-system.js` implementation, a run that stores an assignment
for another test of the same group rewrites the kept assignment's
`tested_variant` (here from `"1"` to `"excluded"`) through
`recalculateTestedVariants`. -/
theorem c4_counterexample :
    (isValid 5 storedAsgA = true ∧
      mget (Legacy.assignGroup 5 [("A", storedAsgA)] "g" [forcedTestA2] 0 0 0 0)
          "A" =
        some overwrittenAsgA) ∧
    mget (assignGroup 5 [("A", storedAsgA)] "g" [forcedTestA1, forcedTest2] 0 0 0 0)
        "A" =
      some { storedAsgA with tested_variant := some "excluded" } := by
  decide

/-- C4 (amended): in the `public/ab-testing-system.js` implementation, for
every test of the group that already holds a currently valid assignment,
re-running `assignGroup` keeps that assignment: the stored record under the
test's id still has the same `testId`, `variant`, `type`, `mode`,
`pageGroup`, `timestamp`, `name` and `assigned_variant`; only the derived
`tested_variant` may be recomputed by `recalculateTestedVariants`.  (The
`ab-testing.js` variant of `setOrKeepAssignment` overwrites unconditionally,
as the counterexample shows.) -/
theorem c4_amended_theorem (now : Nat) (m : AMap) (g : String)
    (tests : List TestDef) (traffic : ℤ) (r u1 u2 : ℚ) (t : TestDef)
    (a : TestAssignment) (hids : idsNodup tests) (ht : t ∈ tests)
    (hget : getAssignment now m t.id = some a) :
    ∃ a2, mget (assignGroup now m g tests traffic r u1 u2) t.id = some a2 ∧
      sansTested a2 = sansTested a := by
  rcases validAt_true_of_getAssignment hget with ⟨hv, hm⟩
  have hS : mgetS m t.id = some (sansTested a) := by
    unfold mgetS
    rw [hm]
    rfl
  have hinj := List.inj_on_of_nodup_map hids
  show ∃ a2, mget (setOrKeepAll now m (assignGroupPairs g tests traffic r u1 u2))
      t.id = some a2 ∧ sansTested a2 = sansTested a
  by_cases hp : ∃ d, (t, d) ∈ assignGroupPairs g tests traffic r u1 u2
  · rcases hp with ⟨d, hd⟩
    have hch := mgetS_setOrKeepAll_pair now
      (assignGroupPairs g tests traffic r u1 u2) m t d
      (pairIds_assignGroupPairs_nodup hids) hd
    have hS2 : mgetS (setOrKeepAll now m (assignGroupPairs g tests traffic r u1 u2))
        t.id = some (sansTested a) := by
      rw [hch, if_pos hv]
      exact hS
    rcases mgetS_some_elim hS2 with ⟨a2, h1, h2⟩
    exact ⟨a2, h1, h2⟩
  · have hnotouch : ∀ p ∈ assignGroupPairs g tests traffic r u1 u2,
        p.1.id ≠ t.id := by
      intro p hpp hpe
      have hptests : p.1 ∈ tests := (mem_assignGroupPairs hpp).1
      have hpeq : p.1 = t := hinj hptests ht hpe
      refine hp ⟨p.2, ?_⟩
      rw [← hpeq]
      exact hpp
    have heq := mgetS_setOrKeepAll_notin now
      (assignGroupPairs g tests traffic r u1 u2) m t.id hnotouch
    have hS2 : mgetS (setOrKeepAll now m (assignGroupPairs g tests traffic r u1 u2))
        t.id = some (sansTested a) := by
      rw [heq]
      exact hS
    rcases mgetS_some_elim hS2 with ⟨a2, h1, h2⟩
    exact ⟨a2, h1, h2⟩

theorem c4_amended_witness :
    ∃ a2, mget (assignGroup 5 [("A", storedAsgA)] "g" [forcedTestA1, forcedTest2]
        0 0 0 0) "A" = some a2 ∧ sansTested a2 = sansTested storedAsgA :=
  c4_amended_theorem 5 [("A", storedAsgA)] "g" [forcedTestA1, forcedTest2]
    0 0 0 0 forcedTestA1 storedAsgA (by decide) (by decide) (by decide)

theorem possibleVars_length (k : Nat) : (possibleVars k).length = k := by
  unfold possibleVars
  rw [List.length_map, List.length_range]

theorem possibleVars_get {k i : Nat} (hi : i < k) :
    (possibleVars k).get? i = some (toString (i + 1)) := by
  unfold possibleVars
  rw [List.get?_map, List.get?_range hi]
  rfl

/-- Fresh characterization: from an empty store, every test that received
per-test data in the run ends up holding exactly that data (up to the derived
`tested_variant`). -/
theorem mget_assignGroup_fresh (now : Nat) {g : String} {tests : List TestDef}
    {traffic : ℤ} {r u1 u2 : ℚ} (hids : idsNodup tests) {t : TestDef}
    {d : AssignData} (hd : (t, d) ∈ assignGroupPairs g tests traffic r u1 u2) :
    ∃ a, mget (assignGroup now [] g tests traffic r u1 u2) t.id = some a ∧
      sansTested a = sansTested (mkTestAssignment now t.id d) := by
  have hch := mgetS_setOrKeepAll_pair now
    (assignGroupPairs g tests traffic r u1 u2) [] t d
    (pairIds_assignGroupPairs_nodup hids) hd
  have hv : validAt now ([] : AMap) t.id = false :=
    validAt_false_of_mgetS_none rfl
  have hS : mgetS (setOrKeepAll now []
      (assignGroupPairs g tests traffic r u1 u2)) t.id =
      some (sansTested (mkTestAssignment now t.id d)) := by
    rw [hch, if_neg (by simp [hv])]
  exact mgetS_some_elim hS

theorem jsFloor_uniform (n : Nat) (hn : 0 < n) (i : Nat) (hi : i < n)
    (u : ℚ) (hu : 0 ≤ u) :
    (jsFloor (u * (n : ℚ))).toNat = i ↔
      ((i : ℚ) / n ≤ u ∧ u < ((i : ℚ) + 1) / n) := by
  have hnQ : (0 : ℚ) < (n : ℚ) := by exact_mod_cast hn
  have hfl : 0 ≤ jsFloor (u * (n : ℚ)) := by
    unfold jsFloor
    exact Int.floor_nonneg.mpr (mul_nonneg hu hnQ.le)
  constructor
  · intro h
    have hz : jsFloor (u * (n : ℚ)) = (i : ℤ) := by omega
    unfold jsFloor at hz
    rw [Int.floor_eq_iff] at hz
    obtain ⟨h1, h2⟩ := hz
    constructor
    · rw [div_le_iff hnQ]
      exact_mod_cast h1
    · rw [lt_div_iff hnQ]
      calc u * (n : ℚ) < ((i : ℤ) : ℚ) + 1 := h2
        _ = (i : ℚ) + 1 := by push_cast; ring
  · rintro ⟨h1, h2⟩
    have ha : (((i : ℤ)) : ℚ) ≤ u * (n : ℚ) := by
      rw [div_le_iff hnQ] at h1
      exact_mod_cast h1
    have hb : u * (n : ℚ) < ((i : ℤ) : ℚ) + 1 := by
      rw [lt_div_iff hnQ] at h2
      calc u * (n : ℚ) < (i : ℚ) + 1 := h2
        _ = ((i : ℤ) : ℚ) + 1 := by push_cast; ring
    have hz : jsFloor (u * (n : ℚ)) = (i : ℤ) := by
      unfold jsFloor
      rw [Int.floor_eq_iff]
      exact ⟨ha, hb⟩
    omega

/-- C3: functional description of the shared traffic draw of `assignGroup`
(run from an empty store, so every decision materializes).  A single draw
`r` is compared against `fraction = traffic / 100`.  If `fraction ≤ r`
(JavaScript `rng >= fraction`), every unforced test of the group is assigned
variant `"0"` with type `"control"` and mode `"pure-control"`.  Otherwise the
unforced test at index `⌊u1·n⌋` — and only it — receives variant
`possibleNonZeroVariants[⌊u2·k⌋] = toString (⌊u2·k⌋ + 1)` with type
`"test"` and mode `"probabilistic"`, and every other unforced test receives
variant `"0"` with mode `"excluded"`.  The last conjunct shows the floor
constructions select index `i` exactly on the interval
`[i/n, (i+1)/n)`, i.e. uniformly for a uniform draw. -/
theorem c3_theorem (now : Nat) (g : String) (tests : List TestDef)
    (traffic : ℤ) (r u1 u2 : ℚ) (hids : idsNodup tests)
    (hu1a : 0 ≤ u1) (hu1b : u1 < 1) (hu2a : 0 ≤ u2) (hu2b : u2 < 1)
    (hne : unforcedOf tests ≠ []) :
    ((traffic : ℚ) / 100 ≤ r →
      ∀ t ∈ unforcedOf tests,
        ∃ a, mget (assignGroup now [] g tests traffic r u1 u2) t.id = some a ∧
          a.variant = some "0" ∧ a.assigned_variant = some "0" ∧
          a.type = some "control" ∧ a.mode = some "pure-control") ∧
    (r < (traffic : ℚ) / 100 →
      (0 ≤ chosenIndexOf tests u1 ∧
        (chosenIndexOf tests u1).toNat < (unforcedOf tests).length) ∧
      ∀ j t, (j, t) ∈ withIdx 0 (unforcedOf tests) →
        (((j : ℤ) = chosenIndexOf tests u1 →
          ∀ k : Nat, 1 ≤ k → t.possibleNonZeroVariants = possibleVars k →
            (jsFloor (u2 * (k : ℚ))).toNat < k ∧
            ∃ a, mget (assignGroup now [] g tests traffic r u1 u2) t.id = some a ∧
              a.variant = some (toString ((jsFloor (u2 * (k : ℚ))).toNat + 1)) ∧
              a.assigned_variant = a.variant ∧
              a.type = some "test" ∧ a.mode = some "probabilistic") ∧
        ((j : ℤ) ≠ chosenIndexOf tests u1 →
          ∃ a, mget (assignGroup now [] g tests traffic r u1 u2) t.id = some a ∧
            a.variant = some "0" ∧ a.assigned_variant = some "0" ∧
            a.type = some "control" ∧ a.mode = some "excluded"))) ∧
    (∀ n : Nat, 0 < n → ∀ i : Nat, i < n → ∀ u : ℚ, 0 ≤ u →
      ((jsFloor (u * (n : ℚ))).toNat = i ↔
        ((i : ℚ) / n ≤ u ∧ u < ((i : ℚ) + 1) / n))) := by
  have hlen : ¬((tests.filter (fun x => x.mode = "test")).length = 0) := by
    intro h0
    rw [List.length_eq_zero] at h0
    exact hne h0
  refine ⟨?_, ?_, ?_⟩
  · intro hr t ht
    have hpair : (t, pureControlAssignmentData g t) ∈
        assignGroupPairs g tests traffic r u1 u2 := by
      unfold assignGroupPairs
      rw [if_neg hlen, if_pos hr]
      exact List.mem_append.mpr (Or.inr (List.mem_map.mpr ⟨t, ht, rfl⟩))
    rcases mget_assignGroup_fresh now hids hpair with ⟨a, hg, hs⟩
    obtain ⟨-, hvar, htyp, hmod, -, -, -, hasg⟩ := sansTested_fields hs
    exact ⟨a, hg, hvar.trans rfl, hasg.trans rfl, htyp.trans rfl, hmod.trans rfl⟩
  · intro hnr'
    have hnr : ¬((traffic : ℚ) / 100 ≤ r) := not_le.mpr hnr'
    have hlenpos : 0 < (unforcedOf tests).length := List.length_pos.mpr hne
    have hbounds := jsFloor_bounds hu1a hu1b hlenpos
    refine ⟨⟨hbounds.1, hbounds.2⟩, ?_⟩
    intro j t hjt
    constructor
    · intro hjc k hk hvars
      have hpair : (t, chosenAssignmentData g t (chosenVariantOf t u2)) ∈
          assignGroupPairs g tests traffic r u1 u2 := by
        unfold assignGroupPairs
        rw [if_neg hlen, if_neg hnr]
        refine List.mem_append.mpr (Or.inr ?_)
        refine List.mem_map.mpr ⟨(j, t), hjt, ?_⟩
        rw [if_pos (show (((j, t).1 : Nat) : ℤ) =
          jsFloor (u1 * ((tests.filter (fun x => x.mode = "test")).length : ℚ))
          from hjc)]
        rfl
      have hkpos : 0 < k := by omega
      have hpick := jsFloor_bounds hu2a hu2b hkpos
      have hfv : chosenVariantOf t u2 =
          some (toString ((jsFloor (u2 * (k : ℚ))).toNat + 1)) := by
        unfold chosenVariantOf
        rw [hvars, possibleVars_length]
        unfold jsIndex
        rw [if_pos hpick.1]
        exact possibleVars_get hpick.2
      rcases mget_assignGroup_fresh now hids hpair with ⟨a, hg, hs⟩
      obtain ⟨-, hvar, htyp, hmod, -, -, -, hasg⟩ := sansTested_fields hs
      refine ⟨hpick.2, a, hg, ?_, ?_, htyp.trans rfl, hmod.trans rfl⟩
      · rw [hvar]
        show chosenVariantOf t u2 = some (toString ((jsFloor (u2 * (k : ℚ))).toNat + 1))
        exact hfv
      · rw [hasg, hvar]
        show jsOrOpt (chosenVariantOf t u2) (chosenVariantOf t u2) = chosenVariantOf t u2
        exact jsOrOpt_self _
    · intro hjc
      have hpair : (t, excludedAssignmentData g t) ∈
          assignGroupPairs g tests traffic r u1 u2 := by
        unfold assignGroupPairs
        rw [if_neg hlen, if_neg hnr]
        refine List.mem_append.mpr (Or.inr ?_)
        refine List.mem_map.mpr ⟨(j, t), hjt, ?_⟩
        rw [if_neg (show ¬((((j, t).1 : Nat) : ℤ) =
          jsFloor (u1 * ((tests.filter (fun x => x.mode = "test")).length : ℚ)))
          from hjc)]
      rcases mget_assignGroup_fresh now hids hpair with ⟨a, hg, hs⟩
      obtain ⟨-, hvar, htyp, hmod, -, -, -, hasg⟩ := sansTested_fields hs
      exact ⟨a, hg, hvar.trans rfl, hasg.trans rfl, htyp.trans rfl, hmod.trans rfl⟩
  · intro n hn i hi u hu
    exact jsFloor_uniform n hn i hi u hu

theorem c3_witness :
    ∃ a, mget (assignGroup 0 [] "g" [unforcedTestA, unforcedTestB] 0 0 0 0)
        unforcedTestA.id = some a ∧
      a.variant = some "0" ∧ a.assigned_variant = some "0" ∧
      a.type = some "control" ∧ a.mode = some "pure-control" :=
  (c3_theorem 0 "g" [unforcedTestA, unforcedTestB] 0 0 0 0 (by decide)
      (le_refl 0) (by decide) (le_refl 0) (by decide) (by decide)).1
    (by simp) unforcedTestA (by decide)

/-- Modelled from the spec wording of the exposure-attribution rule (C2): the
`tested_variant` each assignment must end up with, as a pure function of the
count of assignments of its group whose `assigned_variant` is not `"0"`:
count 0 → `"0"`; count 1 → the non-zero assignment keeps its own
`assigned_variant` and the rest become `"excluded"`; count ≥ 2 → all
`"excluded"`. -/
def specTestedVariant (m : AMap) (a : TestAssignment) : Option String :=
  if nonZeroCountIn m (groupKey a) = 0 then some "0"
  else if nonZeroCountIn m (groupKey a) = 1 then
    (if a.assigned_variant ≠ some "0" then a.assigned_variant
      else some "excluded")
  else some "excluded"

/-- C2: `recalculateTestedVariants` rewrites every stored assignment's
`tested_variant` to exactly the spec's count-based attribution rule
(`specTestedVariant`), leaving everything else in place. -/
theorem c2_theorem (m : AMap) :
    recalculateTestedVariants m =
      m.map (fun e => (e.1, { e.2 with tested_variant := specTestedVariant m e.2 })) := by
  unfold recalculateTestedVariants
  apply List.map_congr_left
  intro e _
  unfold recalcOne specTestedVariant
  by_cases h0 : nonZeroCountIn m (groupKey e.2) = 0
  · rw [if_pos h0, if_pos h0]
  · rw [if_neg h0, if_neg h0]
    by_cases h1 : nonZeroCountIn m (groupKey e.2) = 1
    · rw [if_pos h1, if_pos h1]
      by_cases h2 : e.2.assigned_variant = some "0"
      · rw [if_pos h2, if_neg (by simp [h2])]
      · rw [if_neg h2, if_pos h2]
    · rw [if_neg h1, if_neg h1]

/-- C5: validity filtering of reads.  Every assignment returned by
`getAssignment` or `getAllAssignments` has all required fields present and an
age strictly below the 30-day expiry window, and for a stored assignment that
fails `isValid`, `getAssignment` answers `none` while the record is still in
the store — the purely functional read leaves the store untouched; deletion
happens only in `cleanup`. -/
theorem c5_theorem (now : Nat) (m : AMap) :
    (∀ testId a, getAssignment now m testId = some a →
      hasAllRequired a = true ∧ now - a.timestamp < ASSIGNMENT_TTL) ∧
    (∀ a, a ∈ getAllAssignments now m →
      hasAllRequired a = true ∧ now - a.timestamp < ASSIGNMENT_TTL) ∧
    (∀ testId a, mget m testId = some a → isValid now a = false →
      getAssignment now m testId = none ∧ mget m testId = some a) := by
  have hsplit : ∀ a : TestAssignment, isValid now a = true →
      hasAllRequired a = true ∧ now - a.timestamp < ASSIGNMENT_TTL := by
    intro a hv
    unfold isValid at hv
    rw [Bool.and_eq_true] at hv
    exact ⟨hv.1, by simpa using hv.2⟩
  refine ⟨?_, ?_, ?_⟩
  · intro testId a hget
    apply hsplit
    rw [getAssignment_eq] at hget
    by_cases hv : validAt now m testId = true
    · rw [if_pos hv] at hget
      have hS : mgetS m testId = some (sansTested a) := by
        unfold mgetS
        rw [hget]
        rfl
      rw [validAt_eq_isValid_of_mgetS hS, isValid_sansTested] at hv
      exact hv
    · rw [if_neg hv] at hget
      cases hget
  · intro a hmem
    apply hsplit
    unfold getAllAssignments at hmem
    exact List.of_mem_filter hmem
  · intro testId a hm hv
    constructor
    · rw [getAssignment_eq]
      rw [if_neg ?_]
      rw [validAt_eq_isValidOpt, hm]
      show ¬(isValid now a = true)
      simp [hv]
    · exact hm

theorem c5_witness :
    getAssignment (32 * 24 * 60 * 60 * 1000) [("A", storedAsgA)] "A" = none ∧
      mget [("A", storedAsgA)] "A" = some storedAsgA :=
  (c5_theorem (32 * 24 * 60 * 60 * 1000) [("A", storedAsgA)]).2.2 "A" storedAsgA
    (by decide) (by decide)

/-- C10: the `TestAssignment` constructor performs no validation
(`validateInput` is never invoked), so `setAssignment` succeeds for every
test id and data object and stores a record under `testId` with the
constructor's fields; when the required `variant` field is absent the stored
record is rejected by `validateInput` had it been called, yet it is stored
anyway — and it is invisible to `getAssignment` (at every probe time) and to
`getAllAssignments`, because `isValid` is false for it. -/
theorem c10_theorem (now : Nat) (m : AMap) (testId : String) (data : AssignData)
    (hvar : data.variant = none) :
    (∃ a, mget (setAssignment now m testId data).1 testId = some a ∧
      sansTested a = sansTested (mkTestAssignment now testId data)) ∧
    (testId ≠ "" → validateInput testId data = .error "Missing required fields") ∧
    (∀ probe : Nat, getAssignment probe (setAssignment now m testId data).1 testId = none) ∧
    (∀ probe : Nat, ∀ a, mget (setAssignment now m testId data).1 testId = some a →
      a ∉ getAllAssignments probe (setAssignment now m testId data).1) := by
  have hS : mgetS (setAssignment now m testId data).1 testId =
      some (sansTested (mkTestAssignment now testId data)) :=
    mgetS_setAssignment_self now m testId data
  have hmk_invalid : ∀ probe : Nat, ∀ b : TestAssignment,
      sansTested b = sansTested (mkTestAssignment now testId data) →
      isValid probe b = false := by
    intro probe b hsb
    obtain ⟨-, hvarb, -, -, -, -, -, -⟩ := sansTested_fields hsb
    unfold isValid hasAllRequired
    rw [hvarb]
    show ((mkTestAssignment now testId data).variant.isSome && _ && _ && _ && _) = false
    have : (mkTestAssignment now testId data).variant = none := hvar
    rw [this]
    rfl
  refine ⟨mgetS_some_elim hS, ?_, ?_, ?_⟩
  · intro hid
    unfold validateInput
    rw [if_neg hid, if_pos (by rw [show falsy data.variant = true by rw [hvar]; rfl]; rfl)]
  · intro probe
    rcases mgetS_some_elim hS with ⟨a, hm, hsa⟩
    rw [getAssignment_eq, if_neg ?_]
    rw [validAt_eq_isValidOpt, hm]
    show ¬(isValid probe a = true)
    rw [hmk_invalid probe a hsa]
    simp
  · intro probe a hm hmem
    have hsa : sansTested a = sansTested (mkTestAssignment now testId data) := by
      have : mgetS (setAssignment now m testId data).1 testId = some (sansTested a) := by
        unfold mgetS
        rw [hm]
        rfl
      rw [hS] at this
      injection this with h2
      exact h2.symm
    unfold getAllAssignments at hmem
    have := List.of_mem_filter hmem
    rw [hmk_invalid probe a hsa] at this
    exact absurd this (by decide)

theorem c10_witness :
    ∃ a, mget (setAssignment 3 [] "T1"
        { variant := none, type := some "test", mode := some "probabilistic",
          pageGroup := some "g", name := none, tested_variant := none,
          assigned_variant := none }).1 "T1" = some a ∧
      sansTested a = sansTested (mkTestAssignment 3 "T1"
        { variant := none, type := some "test", mode := some "probabilistic",
          pageGroup := some "g", name := none, tested_variant := none,
          assigned_variant := none }) :=
  (c10_theorem 3 [] "T1"
    { variant := none, type := some "test", mode := some "probabilistic",
      pageGroup := some "g", name := none, tested_variant := none,
      assigned_variant := none } (by decide)).1

/-- Sliding rate-limit window, in milliseconds (`RateLimiter`, default). -/
def RATE_LIMIT_WINDOW : Nat := 60000

/-- `RateLimiter.checkLimit`'s effect on the recorded request timestamps:
stale timestamps are discarded and the captured `now` is pushed.  When the
window is full the caller first awaits a timer, but it still pushes the
`now` captured before the wait, so the state transition is the same. -/
def checkLimit (now : Nat) (requests : List Nat) : List Nat :=
  (requests.filter (fun t => now - t < RATE_LIMIT_WINDOW)) ++ [now]

/-- Deduplication expiry window (`EventDeduplicator`, default 30 min). -/
def DEDUP_EXPIRY : Nat := 30 * 60 * 1000

/-- Summary record the payload builder stores per assignment. -/
structure AsgSummary where
  variant : Option String
  type : Option String
  mode : Option String
  group : Option String
  name : String
deriving Repr, DecidableEq

/-- The `event_data` object of a payload.  `test_assignments`, `path` and
`template` are filled in by `createEventPayload`; the remaining fields are
whatever the caller passed. -/
structure EventData where
  test_id : Option String
  variant : Option String
  assignment_type : Option String
  assignment_mode : Option String
  page_group : Option String
  shop_domain : Option String
  experiment_name : Option String
  assigned_variant : Option String
  tested_variant : Option String
  test_assignments : List (String × AsgSummary)
  path : String
  template : String
deriving Repr, DecidableEq

/-- The `data` object of an event payload built by `createEventPayload`. -/
structure PayloadData where
  session_id : String
  user_id : String
  event_name : String
  event_type : String
  client_timestamp : String
  timezone_offset : Int
  event_data : EventData
deriving Repr, DecidableEq

/-- An event as enqueued: `{ type, data }`.  `data` is optional so that the
malformed events `queueEvent` guards against are representable. -/
structure EventPayload where
  type : String
  data : Option PayloadData
deriving Repr, DecidableEq

/-- `EventDeduplicator.generateKey`.  The source destructures
`{ session_id, test_id, event_name, client_timestamp } = evt.data`, but the
payloads built by `createEventPayload` carry `test_id` only inside
`data.event_data`, never directly on `data`; the destructured `test_id` is
therefore always `undefined` and the interpolated key always carries the
literal text `undefined` in that slot. -/
def generateKey (d : PayloadData) : String :=
  d.session_id ++ ":undefined:" ++ d.event_name ++ ":" ++ d.client_timestamp

/-- Lookup in the deduplicator's processed-events map. -/
def dedupGet (m : List (String × Nat)) (k : String) : Option Nat :=
  (m.find? (fun e => e.1 = k)).map Prod.snd

/-- JavaScript `Map.set` for the processed-events map. -/
def dedupSet (m : List (String × Nat)) (k : String) (v : Nat) :
    List (String × Nat) :=
  if m.any (fun e => e.1 = k) then
    m.map (fun e => if e.1 = k then (k, v) else e)
  else
    m ++ [(k, v)]

/-- JavaScript `Map.delete` for the processed-events map. -/
def dedupDel (m : List (String × Nat)) (k : String) : List (String × Nat) :=
  m.filter (fun e => !decide (e.1 = k))

/-- `EventDeduplicator.isDuplicate`, returning the answer and the possibly
lazily-evicted map.  `if (!last) return false` means a literal timestamp 0
is treated as absent (JavaScript falsiness of 0). -/
def isDuplicate (now : Nat) (m : List (String × Nat)) (d : PayloadData) :
    Bool × List (String × Nat) :=
  match dedupGet m (generateKey d) with
  | none => (false, m)
  | some last =>
    if last = 0 then (false, m)
    else if DEDUP_EXPIRY < now - last then (false, dedupDel m (generateKey d))
    else (true, m)

/-- `EventDeduplicator.markProcessed`. -/
def markProcessed (now : Nat) (m : List (String × Nat)) (d : PayloadData) :
    List (String × Nat) :=
  dedupSet m (generateKey d) now

/-- `EventDeduplicator.cleanup`: proactively evict every stale entry. -/
def dedupCleanup (now : Nat) (m : List (String × Nat)) : List (String × Nat) :=
  m.filter (fun e => !decide (DEDUP_EXPIRY < now - e.2))

/-- `QueueManager.getBatch`: non-destructive peek of up to `size` oldest. -/
def getBatch (q : List α) (size : Nat) : List α := q.take size

/-- `QueueManager.removeBatch`: drop the `size` oldest events. -/
def removeBatch (q : List α) (size : Nat) : List α := q.drop size

/-- The mutable state the scheduled batch sender works on. -/
structure ProcState (α : Type) where
  queue : List α
  failedAttempts : Nat
  isProcessing : Bool
deriving Repr, DecidableEq

/-- One tick of `processQueue` (`setupEventProcessing`), with the send
outcome abstracted as `sendOk`.  The circuit-breaker branch clears the
interval and schedules a delayed counter reset; at the moment of the tick it
changes neither the queue nor the counter, which is all this step function
records.  The `finally` block restores `isProcessing` to `false`. -/
def processQueue (batchSize maxConsecutiveFailures : Nat) (st : ProcState α)
    (sendOk : Bool) : ProcState α :=
  if st.isProcessing || decide (st.queue.length = 0) then st
  else if maxConsecutiveFailures ≤ st.failedAttempts then st
  else if sendOk then
    ProcState.mk (removeBatch st.queue (getBatch st.queue batchSize).length) 0 false
  else
    ProcState.mk st.queue (st.failedAttempts + 1) false

theorem getBatch_append_removeBatch (q : List α) (n : Nat) :
    getBatch q n ++ removeBatch q (getBatch q n).length = q := by
  unfold getBatch removeBatch
  induction q generalizing n with
  | nil => simp
  | cons a q ih =>
    cases n with
    | zero => simp
    | succ n =>
      rw [List.take_succ_cons, List.length_cons, List.cons_append,
        List.drop_succ_cons]
      rw [ih n]

/-- C6: a batch attempt of the scheduled sender (not idle, queue non-empty,
breaker not tripped).  On success exactly the peeked batch of up to
`batchSize` oldest events is removed — the old queue is the batch followed by
the remaining queue — and the consecutive-failure counter resets to 0.  On
failure the queue is exactly unchanged and the counter grows by exactly 1. -/
theorem c6_theorem {α : Type} (batchSize maxFail : Nat) (st : ProcState α)
    (h1 : st.isProcessing = false) (h2 : st.queue ≠ [])
    (h3 : st.failedAttempts < maxFail) :
    ((processQueue batchSize maxFail st true).queue =
        removeBatch st.queue (getBatch st.queue batchSize).length ∧
      getBatch st.queue batchSize ++ (processQueue batchSize maxFail st true).queue
        = st.queue ∧
      (processQueue batchSize maxFail st true).failedAttempts = 0) ∧
    ((processQueue batchSize maxFail st false).queue = st.queue ∧
      (processQueue batchSize maxFail st false).failedAttempts =
        st.failedAttempts + 1) := by
  have hq : ¬(st.queue.length = 0) := by
    intro h0
    rw [List.length_eq_zero] at h0
    exact h2 h0
  have hcond1 : (st.isProcessing || decide (st.queue.length = 0)) = false := by
    rw [h1]
    simp [hq]
  have hcond2 : ¬(maxFail ≤ st.failedAttempts) := by omega
  have hsucc : processQueue batchSize maxFail st true =
      ProcState.mk (removeBatch st.queue (getBatch st.queue batchSize).length)
        0 false := by
    unfold processQueue
    rw [hcond1]
    simp only [Bool.false_eq_true, if_false]
    rw [if_neg hcond2]
    simp
  have hfail : processQueue batchSize maxFail st false =
      ProcState.mk st.queue (st.failedAttempts + 1) false := by
    unfold processQueue
    rw [hcond1]
    simp only [Bool.false_eq_true, if_false]
    rw [if_neg hcond2]
  refine ⟨⟨?_, ?_, ?_⟩, ⟨?_, ?_⟩⟩
  · rw [hsucc]
  · rw [hsucc]
    exact getBatch_append_removeBatch st.queue batchSize
  · rw [hsucc]
  · rw [hfail]
  · rw [hfail]

theorem c6_witness :
    (processQueue 10 3 (ProcState.mk (List.range 12) 0 false) true).queue.length = 2 ∧
    (processQueue 10 3 (ProcState.mk (List.range 12) 0 false) false).queue.length = 12 ∧
    (processQueue 10 3 (ProcState.mk (List.range 12) 0 false) false).failedAttempts = 1 := by
  have h := c6_theorem 10 3 (ProcState.mk (List.range 12) 0 false) rfl
    (by decide) (by decide)
  refine ⟨?_, ?_, ?_⟩
  · rw [h.1.1]
    decide
  · rw [h.2.1]
    decide
  · rw [h.2.2]

/-- JavaScript `x || null` for a string-or-undefined value. -/
def jsOrNull (o : Option String) : Option String :=
  if falsy o then none else o

/-- The per-page state of the PostgreSQL reporter: the assignment store, the
event queue, the deduplicator map, the rate-limiter timestamps, the tracking
ids (immutable per page load) and the page context the payload builder
reads. -/
structure ReporterState where
  assignments : AMap
  queue : List EventPayload
  processedEvents : List (String × Nat)
  requests : List Nat
  userId : String
  sessionId : String
  shopDomain : String
  path : String
  template : String
deriving Repr, DecidableEq

/-- `PostgresReporter.cleanPath`: strip one trailing slash, empty becomes
`"/"`. -/
def cleanPath (path : String) : String :=
  if path = "" then "/"
  else
    let stripped := if path.endsWith "/" then path.dropRight 1 else path
    if stripped = "" then "/" else stripped

/-- The `test_assignments` summary `createEventPayload` embeds into every
payload. -/
def summarize (l : List TestAssignment) : List (String × AsgSummary) :=
  l.map (fun a => (a.testId,
    { variant := a.variant, type := a.type, mode := a.mode,
      group := a.pageGroup, name := a.name }))

/-- `PostgresReporter.createEventPayload`: throws when a tracking id is
missing, otherwise builds the payload; `now` is the clock read for
`getAllAssignments`, `nowIso` the ISO `client_timestamp` string, `tz` the
timezone offset. -/
def createEventPayload (now : Nat) (nowIso : String) (tz : Int)
    (st : ReporterState) (eventName eventType : String) (ed : EventData) :
    Except String EventPayload :=
  if st.userId = "" || st.sessionId = "" then
    .error "Missing user or session ID"
  else
    .ok (EventPayload.mk eventType (some
      { session_id := st.sessionId
        user_id := st.userId
        event_name := eventName
        event_type := eventType
        client_timestamp := nowIso
        timezone_offset := tz
        event_data := { ed with
          test_assignments := summarize (getAllAssignments now st.assignments)
          path := cleanPath st.path
          template := st.template } }))

/-- `PostgresReporter.queueEvent`: reject an event without `type` or `data`
or without its tracking ids; otherwise await the rate limiter and append the
event to the queue. -/
def queueEvent (now : Nat) (st : ReporterState) (evt : EventPayload) :
    Except String ReporterState :=
  if evt.type = "" then .error "Invalid event structure"
  else
    match evt.data with
    | none => .error "Invalid event structure"
    | some d =>
      if d.user_id = "" || d.session_id = "" then
        .error "Missing user/session ID"
      else
        .ok { st with
          requests := checkLimit now st.requests
          queue := st.queue ++ [evt] }

/-- Blank `event_data`; each event builder fills the fields it sets. -/
def emptyEventData : EventData :=
  { test_id := none, variant := none, assignment_type := none,
    assignment_mode := none, page_group := none, shop_domain := none,
    experiment_name := none, assigned_variant := none, tested_variant := none,
    test_assignments := [], path := "", template := "" }

/-- The `event_data` literal `_trackImpression` passes to
`createEventPayload`. -/
def impressionEventData (shopDomain : String) (asg : TestAssignment)
    (tested_variant assigned_variant : Option String) : EventData :=
  { emptyEventData with
    test_id := some asg.testId
    variant := asg.variant
    page_group := asg.pageGroup
    shop_domain := some shopDomain
    experiment_name := some (jsOr (some asg.name) "")
    tested_variant := jsOrNull tested_variant
    assigned_variant := jsOrOpt assigned_variant asg.variant }

/-- `PostgresReporter._trackImpression` (`ab-testing.js` lines 1106-1131):
build the impression payload, drop it when the deduplicator says duplicate
(keeping the deduplicator's lazy eviction), otherwise enqueue and mark
processed. -/
def _trackImpression (now : Nat) (nowIso : String) (tz : Int)
    (st : ReporterState) (asg : TestAssignment)
    (tested_variant assigned_variant : Option String) :
    Except String ReporterState :=
  match createEventPayload now nowIso tz st "test_impression" "test"
      (impressionEventData st.shopDomain asg tested_variant assigned_variant) with
  | .error e => .error e
  | .ok evt =>
    match evt.data with
    | none => .error "TypeError"
    | some d =>
      let dup := isDuplicate now st.processedEvents d
      if dup.1 then .ok { st with processedEvents := dup.2 }
      else
        match queueEvent now { st with processedEvents := dup.2 } evt with
        | .error e => .error e
        | .ok st2 =>
          .ok { st2 with processedEvents := markProcessed now st2.processedEvents d }

/-- The named arguments of `trackAssignment`. -/
structure TrackArgs where
  testId : Option String
  variant : Option String
  assignmentType : Option String
  assignmentMode : Option String
  pageGroup : Option String
  userId : Option String
  name : Option String
  assigned_variant : Option String
  tested_variant : Option String
deriving Repr, DecidableEq

/-- View of a freshly built `TestAssignment` as the `data` object it becomes
when `setAssignment` re-runs the constructor on it (the source passes the
instance itself as `data`). -/
def dataOfAssignment (a : TestAssignment) : AssignData :=
  { variant := a.variant, type := a.type, mode := a.mode,
    pageGroup := a.pageGroup, name := some a.name,
    tested_variant := some a.tested_variant,
    assigned_variant := a.assigned_variant }

/-- The `event_data` literal `trackAssignment` passes to
`createEventPayload`. -/
def assignmentEventData (shopDomain : String) (args : TrackArgs)
    (asg : TestAssignment) : EventData :=
  { emptyEventData with
    test_id := args.testId
    variant := args.variant
    assignment_type := args.assignmentType
    assignment_mode := args.assignmentMode
    page_group := args.pageGroup
    shop_domain := some shopDomain
    experiment_name := some (jsOr (some asg.name) "")
    assigned_variant := jsOrOpt args.assigned_variant args.variant
    tested_variant := jsOrNull args.tested_variant }

/-- `PostgresReporter.trackAssignment` (`ab-testing.js` lines 1037-1105):
validate the five required fields, return unchanged when a currently valid
assignment for the test already exists, otherwise store a fresh assignment,
enqueue a `test_assignment` event and a deduplicated `test_impression`
event. -/
def trackAssignment (now : Nat) (nowIso : String) (tz : Int)
    (st : ReporterState) (args : TrackArgs) : Except String ReporterState :=
  if falsy args.testId || falsy args.variant || falsy args.assignmentType
      || falsy args.assignmentMode || falsy args.pageGroup then
    .error "Missing assignment data"
  else
    match getAssignment now st.assignments (args.testId.getD "") with
    | some _ => .ok st
    | none =>
      let asgData : AssignData :=
        { variant := args.variant, type := args.assignmentType,
          mode := args.assignmentMode, pageGroup := args.pageGroup,
          name := some (jsOr args.name ""),
          tested_variant := some (jsOrNull args.tested_variant),
          assigned_variant := jsOrOpt args.assigned_variant args.variant }
      let asg := mkTestAssignment now (args.testId.getD "") asgData
      let st1 := { st with assignments :=
        (setAssignment now st.assignments (args.testId.getD "")
          (dataOfAssignment asg)).1 }
      match createEventPayload now nowIso tz st1 "test_assignment" "system"
          (assignmentEventData st.shopDomain args asg) with
      | .error e => .error e
      | .ok evt =>
        match queueEvent now st1 evt with
        | .error e => .error e
        | .ok st2 =>
          _trackImpression now nowIso tz st2 asg args.tested_variant
            args.assigned_variant

/-- Decidable equality for `Except`, needed to evaluate reporter results. -/
instance {e a : Type} [DecidableEq e] [DecidableEq a] :
    DecidableEq (Except e a) := fun x y =>
  match x, y with
  | .ok v, .ok w =>
    if h : v = w then .isTrue (by rw [h])
    else .isFalse (by intro hc; injection hc; exact h (by assumption))
  | .error v, .error w =>
    if h : v = w then .isTrue (by rw [h])
    else .isFalse (by intro hc; injection hc; exact h (by assumption))
  | .ok _, .error _ => .isFalse (by intro hc; exact Except.noConfusion hc)
  | .error _, .ok _ => .isFalse (by intro hc; exact Except.noConfusion hc)

/-- Baseline reporter state with both tracking ids present and nothing
stored. -/
def baseReporterState : ReporterState :=
  { assignments := [], queue := [], processedEvents := [], requests := [],
    userId := "u1", sessionId := "s1", shopDomain := "shop.example",
    path := "/", template := "index" }

/-- C7 fixture: a currently valid assignment for test `"A"` is already
stored. -/
def c7state : ReporterState :=
  { baseReporterState with assignments := [("A", storedAsgA)] }

/-- C7 fixture: `trackAssignment` arguments whose `assignmentType` is
missing. -/
def c7badArgs : TrackArgs :=
  { testId := some "A", variant := some "1", assignmentType := none,
    assignmentMode := some "probabilistic", pageGroup := some "g",
    userId := none, name := none, assigned_variant := none,
    tested_variant := none }

/-- C7 fixture: fully populated `trackAssignment` arguments for test
`"A"`. -/
def c7goodArgs : TrackArgs :=
  { testId := some "A", variant := some "1", assignmentType := some "test",
    assignmentMode := some "probabilistic", pageGroup := some "g",
    userId := none, name := some "exp", assigned_variant := none,
    tested_variant := none }

/-- C7: counterexample. A currently valid assignment for `"A"` exists, yet
`trackAssignment` does not return without error: the five-field validation
runs before the existing-assignment check, so a call that is missing
`assignmentType` throws even though the claim promises a silent no-op
whenever a valid assignment already exists. -/
theorem c7_counterexample :
    getAssignment 5 c7state.assignments "A" = some storedAsgA ∧
    trackAssignment 5 "iso" 0 c7state c7badArgs =
      .error "Missing assignment data" := by
  decide

/-- C7 (amended): when the five required arguments are all present
(truthy) and a currently valid assignment for the test exists,
`trackAssignment` returns successfully with the reporter state completely
unchanged: no assignment is stored and no event is enqueued. -/
theorem c7_amended_theorem (now : Nat) (nowIso : String) (tz : Int)
    (st : ReporterState) (args : TrackArgs)
    (h1 : falsy args.testId = false) (h2 : falsy args.variant = false)
    (h3 : falsy args.assignmentType = false)
    (h4 : falsy args.assignmentMode = false)
    (h5 : falsy args.pageGroup = false) (e : TestAssignment)
    (hex : getAssignment now st.assignments (args.testId.getD "") = some e) :
    trackAssignment now nowIso tz st args = .ok st := by
  unfold trackAssignment
  rw [if_neg (by simp [h1, h2, h3, h4, h5]), hex]

/-- C7 (amended) witness at concrete inputs. -/
theorem c7_amended_witness :
    trackAssignment 5 "iso" 0 c7state c7goodArgs = .ok c7state :=
  c7_amended_theorem 5 "iso" 0 c7state c7goodArgs (by decide) (by decide)
    (by decide) (by decide) (by decide) storedAsgA (by decide)

/-- C8 fixture: payload data with a user id but an empty session id, so it
lacks one tracking identifier but not both. -/
def c8data : PayloadData :=
  { session_id := "", user_id := "u1", event_name := "e",
    event_type := "test", client_timestamp := "t0", timezone_offset := 0,
    event_data := emptyEventData }

/-- C8 fixture: an event with `type` and `data` whose data is `c8data`. -/
def c8evtHalf : EventPayload := { type := "test", data := some c8data }

/-- C8: counterexample. An event that has `type`, has `data`, and has a
user id — so it does not lack BOTH tracking identifiers — is still
rejected, because the code requires each identifier separately
(`!evt.data.user_id || !evt.data.session_id`). -/
theorem c8_counterexample :
    queueEvent 0 baseReporterState c8evtHalf =
      .error "Missing user/session ID" ∧
    c8evtHalf.type ≠ "" ∧ c8evtHalf.data = some c8data ∧
    ¬(c8data.user_id = "" ∧ c8data.session_id = "") := by
  decide

/-- C8 (amended): `queueEvent` fails exactly when the event lacks `type`,
lacks `data`, or lacks AT LEAST ONE of the two tracking identifiers; every
event that passes validation is appended to the queue after the rate
limiter records the request. -/
theorem c8_amended_theorem (now : Nat) (st : ReporterState)
    (evt : EventPayload) :
    (∀ st2, queueEvent now st evt = .ok st2 →
      st2 = { st with
        requests := checkLimit now st.requests
        queue := st.queue ++ [evt] }) ∧
    ((∃ e, queueEvent now st evt = .error e) ↔
      (evt.type = "" ∨ evt.data = none ∨
        ∃ d, evt.data = some d ∧ (d.user_id = "" ∨ d.session_id = ""))) := by
  obtain ⟨ty, da⟩ := evt
  cases da with
  | none =>
    by_cases ht : ty = ""
    · simp only [queueEvent]
      rw [if_pos ht]
      exact ⟨fun _ h => Except.noConfusion h,
        ⟨fun _ => Or.inl ht, fun _ => ⟨_, rfl⟩⟩⟩
    · simp only [queueEvent]
      rw [if_neg ht]
      exact ⟨fun _ h => Except.noConfusion h,
        ⟨fun _ => Or.inr (Or.inl (by simp)), fun _ => ⟨_, rfl⟩⟩⟩
  | some d =>
    by_cases ht : ty = ""
    · simp only [queueEvent]
      rw [if_pos ht]
      exact ⟨fun _ h => Except.noConfusion h,
        ⟨fun _ => Or.inl ht, fun _ => ⟨_, rfl⟩⟩⟩
    · simp only [queueEvent]
      rw [if_neg ht]
      by_cases hid : d.user_id = "" ∨ d.session_id = ""
      · rw [if_pos (show (decide (d.user_id = "")
            || decide (d.session_id = "")) = true by
          rcases hid with h | h <;> simp [h])]
        exact ⟨fun _ h => Except.noConfusion h,
          ⟨fun _ => Or.inr (Or.inr ⟨d, rfl, hid⟩), fun _ => ⟨_, rfl⟩⟩⟩
      · push_neg at hid
        rw [if_neg (show ¬(decide (d.user_id = "")
            || decide (d.session_id = "")) = true by
          simp [hid.1, hid.2])]
        constructor
        · intro st2 h
          injection h with h
          exact h.symm
        · constructor
          · rintro ⟨e2, h⟩
            exact Except.noConfusion h
          · rintro (h | h | ⟨d2, hd2, hor⟩)
            · exact absurd h ht
            · exact Option.noConfusion h
            · injection hd2 with hd2
              subst hd2
              rcases hor with h | h
              · exact absurd h hid.1
              · exact absurd h hid.2

/-- C8 (amended) witness: the half-identified fixture event is rejected
even though it does not lack both identifiers. -/
theorem c8_amended_witness :
    ∃ e, queueEvent 0 baseReporterState c8evtHalf = .error e :=
  (c8_amended_theorem 0 baseReporterState c8evtHalf).2.mpr
    (Or.inr (Or.inr ⟨c8data, rfl, Or.inr rfl⟩))

theorem dedupGet_cons (e : String × Nat) (m : List (String × Nat))
    (k : String) :
    dedupGet (e :: m) k = if e.1 = k then some e.2 else dedupGet m k := by
  by_cases h : e.1 = k <;> simp [dedupGet, List.find?_cons, h]

theorem dedupGet_none_of_not_any {m : List (String × Nat)} {k : String}
    (h : m.any (fun e => e.1 = k) = false) : dedupGet m k = none := by
  induction m with
  | nil => rfl
  | cons e m ih =>
    simp only [List.any_cons, Bool.or_eq_false_iff] at h
    rw [dedupGet_cons, if_neg (by simpa using h.1)]
    exact ih h.2

theorem dedupGet_replaceKey_self {k : String} {v : Nat} :
    ∀ m : List (String × Nat), m.any (fun e => e.1 = k) = true →
      dedupGet (m.map (fun e => if e.1 = k then (k, v) else e)) k = some v := by
  intro m
  induction m with
  | nil => intro hany; simp at hany
  | cons e m ih =>
    intro hany
    by_cases he : e.1 = k
    · simp only [List.map_cons, if_pos he, dedupGet_cons]
      simp
    · simp only [List.map_cons, if_neg he, dedupGet_cons, if_neg he]
      apply ih
      simp only [List.any_cons, he] at hany
      simpa using hany

theorem dedupGet_append_single_self {k : String} (v : Nat) :
    ∀ m : List (String × Nat), dedupGet m k = none →
      dedupGet (m ++ [(k, v)]) k = some v := by
  intro m
  induction m with
  | nil => intro _; simp [dedupGet, List.find?]
  | cons e m ih =>
    intro h0
    rw [dedupGet_cons] at h0
    by_cases he : e.1 = k
    · rw [if_pos he] at h0
      cases h0
    · rw [if_neg he] at h0
      rw [List.cons_append, dedupGet_cons, if_neg he]
      exact ih h0

theorem dedupGet_set_self (m : List (String × Nat)) (k : String) (v : Nat) :
    dedupGet (dedupSet m k v) k = some v := by
  unfold dedupSet
  split
  · rename_i hany
    exact dedupGet_replaceKey_self m hany
  · rename_i hany
    rw [Bool.not_eq_true] at hany
    exact dedupGet_append_single_self v m (dedupGet_none_of_not_any hany)

theorem isDuplicate_some {m : List (String × Nat)} {d : PayloadData}
    {last : Nat} (h : dedupGet m (generateKey d) = some last) (now : Nat) :
    isDuplicate now m d =
      (if last = 0 then (false, m)
       else if DEDUP_EXPIRY < now - last then
         (false, dedupDel m (generateKey d))
       else (true, m)) := by
  unfold isDuplicate
  rw [h]

theorem dedupGet_del_self (m : List (String × Nat)) (k : String) :
    dedupGet (dedupDel m k) k = none := by
  apply dedupGet_none_of_not_any
  rw [Bool.eq_false_iff]
  intro hany
  rcases List.any_eq_true.mp hany with ⟨e, he, hk⟩
  unfold dedupDel at he
  have := List.of_mem_filter he
  rw [decide_eq_true_eq] at hk
  simp [hk] at this

/-- A `test_impression` whose deduplication key was marked within the
expiry window is suppressed: the reporter state, queue included, is
returned unchanged. -/
theorem trackImpression_dup_aux (now : Nat) (nowIso : String) (tz : Int)
    (st : ReporterState) (asg : TestAssignment) (tv av : Option String)
    (hu : ¬st.userId = "") (hs : ¬st.sessionId = "") (t1 : Nat)
    (ht1z : ¬t1 = 0)
    (hget2 : dedupGet st.processedEvents
      (st.sessionId ++ ":undefined:" ++ "test_impression" ++ ":" ++ nowIso)
      = some t1)
    (hwin : now - t1 ≤ DEDUP_EXPIRY) :
    _trackImpression now nowIso tz st asg tv av = .ok st := by
  have key : ∀ pd : PayloadData, pd.session_id = st.sessionId →
      pd.event_name = "test_impression" → pd.client_timestamp = nowIso →
      isDuplicate now st.processedEvents pd = (true, st.processedEvents) := by
    intro pd h1 h2 h3
    have hg : dedupGet st.processedEvents (generateKey pd) = some t1 := by
      unfold generateKey
      rw [h1, h2, h3]
      exact hget2
    rw [isDuplicate_some hg, if_neg ht1z, if_neg (Nat.not_lt.mpr hwin)]
  unfold _trackImpression createEventPayload
  rw [if_neg (by simp [hu, hs])]
  simp only [key]
  rfl

/-- C9 fixture: a payload whose key fields match themselves. -/
def c9data : PayloadData :=
  { session_id := "s1", user_id := "u1", event_name := "test_impression",
    event_type := "test", client_timestamp := "t0", timezone_offset := 0,
    event_data := emptyEventData }

/-- C9: two payloads agreeing on (session id, test id, event name, client
timestamp) produce the same deduplication key; after the first is marked
processed at `t1`, a second lookup at `t2` within the 30-minute window
reports a duplicate and leaves the map untouched, while a lookup after the
window reports no duplicate and evicts the stale key; and an impression
that the deduplicator flags as duplicate leaves the whole reporter state —
in particular the queue — unchanged (it is not enqueued).  The hypothesis
`0 < t1` reflects the code: `if (!last) return false` treats a stored
timestamp of literally 0 (the epoch) as absent. -/
theorem c9_theorem (t1 t2 : Nat) (m : List (String × Nat))
    (d1 d2 : PayloadData) (ht1 : 0 < t1)
    (hsess : d1.session_id = d2.session_id)
    (htest : d1.event_data.test_id = d2.event_data.test_id)
    (hname : d1.event_name = d2.event_name)
    (hts : d1.client_timestamp = d2.client_timestamp) :
    generateKey d1 = generateKey d2 ∧
    (t2 - t1 ≤ DEDUP_EXPIRY →
      isDuplicate t2 (markProcessed t1 m d1) d2 =
        (true, markProcessed t1 m d1)) ∧
    (DEDUP_EXPIRY < t2 - t1 →
      (isDuplicate t2 (markProcessed t1 m d1) d2).1 = false ∧
      dedupGet (isDuplicate t2 (markProcessed t1 m d1) d2).2
        (generateKey d2) = none) ∧
    (∀ (nowIso : String) (tz : Int) (st : ReporterState)
        (asg : TestAssignment) (tv av : Option String),
      st.userId ≠ "" → st.sessionId ≠ "" →
      dedupGet st.processedEvents
        (st.sessionId ++ ":undefined:" ++ "test_impression" ++ ":" ++ nowIso)
        = some t1 →
      t2 - t1 ≤ DEDUP_EXPIRY →
      _trackImpression t2 nowIso tz st asg tv av = .ok st) := by
  have hkey : generateKey d1 = generateKey d2 := by
    unfold generateKey
    rw [hsess, hname, hts]
  have hget : dedupGet (markProcessed t1 m d1) (generateKey d2) = some t1 := by
    rw [markProcessed, hkey]
    exact dedupGet_set_self m (generateKey d2) t1
  have ht1z : ¬t1 = 0 := Nat.pos_iff_ne_zero.mp ht1
  refine ⟨hkey, ?_, ?_, ?_⟩
  · intro hwin
    rw [isDuplicate_some hget, if_neg ht1z, if_neg (Nat.not_lt.mpr hwin)]
  · intro hlate
    rw [isDuplicate_some hget, if_neg ht1z, if_pos hlate]
    exact ⟨rfl, dedupGet_del_self (markProcessed t1 m d1) (generateKey d2)⟩
  · intro nowIso tz st asg tv av hu hs hget2 hwin
    exact trackImpression_dup_aux t2 nowIso tz st asg tv av hu hs t1 ht1z
      hget2 hwin

/-- C9 witness at concrete inputs: marked at 1, looked up at 2. -/
theorem c9_witness :
    isDuplicate 2 (markProcessed 1 [] c9data) c9data =
      (true, markProcessed 1 [] c9data) :=
  (c9_theorem 1 2 [] c9data c9data (by decide) rfl rfl rfl rfl).2.1
    (by decide)

end ABTesting
